import Mathlib

/-!
# Verification of the CrypNote core

A shallow embedding, in Lean 4, of the CrypNote core: the byte-level
serialization layer (`src/serde.ts`, `src/bytes.ts`), the key codec
(`src/lib/crypto.ts`), the password vault (`src/lib/password.ts`), the account
model (`src/lib/account.ts`) and the message codec (`src/lib/encoded.ts`).

Modelling conventions:

* A JS `Uint8Array` byte sequence is a `List Nat`.  The wire positions that the
  program itself writes always hold values below 256; payloads produced by the
  (external) cryptographic primitives are idealized as symbolic values that may
  exceed 255, so `BytesMut.push`/`extend` are modelled without the `Uint8Array`
  coercion and the read/write integer primitives carry their `% 256` reductions
  explicitly.
* A `BytesReader` holds `bytes_`, the remaining suffix of the input
  (`advance(by)` replaces it with `bytes.slice(by)`); we model a reader state as
  that remaining suffix, and a fallible stateful read as a function
  `List Nat → Except Err α × List Nat` returning the outcome together with the
  final reader state.  JS exceptions unwind without rolling the reader back, so
  the state at the throw point is preserved in the failure case.
* A JS string is modelled as its list of Unicode scalar values (`JsString`).
  The platform `TextEncoder`/`TextDecoder` pair (external to the repository) is
  modelled by an executable UTF-8 codec, `utf8Encode`/`utf8Decode`, following
  the WHATWG spec (invalid sequences decode to U+FFFD).
* The WebCrypto primitives (external to the repository) are modelled
  symbolically: an AES-GCM ciphertext is a redundant encoding of
  (key, iv, additional data, plaintext) so that authentication failures —
  including any single-symbol modification — are detectable by construction;
  ECDSA signatures and ECDH key agreement are ideal deterministic primitives;
  randomness (`crypto.getRandomValues`) is passed in as an explicit argument.
-/

set_option maxRecDepth 4096
set_option linter.unusedVariables false

namespace CrypNote

/-- The error classes of the program: `InvalidFormatError` and `OutdatedError`
from `src/serde.ts`, `IncorrectPassword` from `src/lib/password.ts`,
`TamperedError` from `src/lib/account.ts`. -/
inductive Err where
  | invalidFormat
  | outdated
  | incorrectPassword
  | tampered
  deriving DecidableEq, Repr

/-- A fallible stateful read over a `BytesReader`: from the remaining input it
produces an outcome (value or thrown error) and the final remaining input.
The final state is kept on failure because a JS exception does not undo the
`advance` calls already performed. -/
def ReadM (α : Type) : Type := List Nat → Except Err α × List Nat

instance : Monad ReadM where
  pure a := fun s => (.ok a, s)
  bind m f := fun s =>
    match m s with
    | (.ok a, s1) => f a s1
    | (.error e, s1) => (.error e, s1)

namespace ReadM

/-- `throw new E()`. -/
def fail (e : Err) : ReadM α := fun s => (.error e, s)

/-- `reader.bytes`: the remaining input. -/
def bytes : ReadM (List Nat) := fun s => (.ok s, s)

/-- `reader.advance(by)`: drop a prefix of the remaining input. -/
def advance (by_ : Nat) : ReadM Unit := fun s => (.ok (), s.drop by_)

@[simp] theorem pure_run (a : α) (s : List Nat) :
    (pure a : ReadM α) s = (.ok a, s) := rfl

@[simp] theorem fail_run (e : Err) (s : List Nat) :
    (fail e : ReadM α) s = (.error e, s) := rfl

@[simp] theorem bytes_run (s : List Nat) : bytes s = (.ok s, s) := rfl

@[simp] theorem advance_run (n : Nat) (s : List Nat) :
    advance n s = (.ok (), s.drop n) := rfl

theorem bind_run (m : ReadM α) (f : α → ReadM β) (s : List Nat) :
    (m >>= f) s =
      match m s with
      | (.ok a, s1) => f a s1
      | (.error e, s1) => (.error e, s1) := rfl

@[simp] theorem bind_run_ok {m : ReadM α} {s s1 : List Nat} {a : α}
    (h : m s = (.ok a, s1)) (f : α → ReadM β) :
    (m >>= f) s = f a s1 := by
  simp [bind_run, h]

@[simp] theorem bind_run_error {m : ReadM α} {s s1 : List Nat} {e : Err}
    (h : m s = (.error e, s1)) (f : α → ReadM β) :
    (m >>= f) s = (.error e, s1) := by
  simp [bind_run, h]

/-- `m` consumes exactly the prefix `pre`, producing `v`, for any continuation
of the input.  The building block for all round-trip and framing proofs. -/
def ParsesTo (m : ReadM α) (pre : List Nat) (v : α) : Prop :=
  ∀ rest, m (pre ++ rest) = (.ok v, rest)

theorem ParsesTo.bind {m : ReadM α} {f : α → ReadM β} {p q : List Nat}
    {v : α} {w : β} (hm : ParsesTo m p v) (hf : ParsesTo (f v) q w) :
    ParsesTo (m >>= f) (p ++ q) w := by
  intro rest
  rw [List.append_assoc]
  rw [bind_run_ok (hm (q ++ rest))]
  exact hf rest

theorem ParsesTo.pure (v : α) : ParsesTo (pure v) [] v := by
  intro rest; rfl

/-- Running a parser on exactly the bytes it consumes succeeds with an empty
remainder: the cursor is fully consumed. -/
theorem ParsesTo.run_exact {m : ReadM α} {p : List Nat} {v : α}
    (h : ParsesTo m p v) : m p = (.ok v, []) := by
  have := h []
  simpa using this

end ReadM

open ReadM

/-! ## Wire primitives (`src/serde.ts`) -/

/-- `requireBytes(reader, space)`: throw `InvalidFormatError` when fewer than
`space` bytes remain. -/
def requireBytes (space : Nat) : ReadM Unit := fun s =>
  if s.length < space then (.error .invalidFormat, s) else (.ok (), s)

@[simp] theorem requireBytes_run_lt {space : Nat} {s : List Nat}
    (h : s.length < space) : requireBytes space s = (.error .invalidFormat, s) := by
  simp [requireBytes, h]

@[simp] theorem requireBytes_run_ge {space : Nat} {s : List Nat}
    (h : space ≤ s.length) : requireBytes space s = (.ok (), s) := by
  simp [requireBytes, Nat.not_lt.mpr h]

/-- `readUint8`. -/
def readUint8 : ReadM Nat := do
  requireBytes 1
  let bs ← bytes
  let byte := bs.getD 0 0
  advance 1
  pure byte

/-- `writeUint8(writer, n)`: `writer.push(n)`; the `Uint8Array` store coerces
the value modulo 256.  The writer is modelled by the list of bytes emitted. -/
def writeUint8 (n : Nat) : List Nat := [n % 256]

/-- `readUint16` (big-endian). -/
def readUint16 : ReadM Nat := do
  requireBytes 2
  let bs ← bytes
  let val := bs.getD 0 0 * 256 + bs.getD 1 0
  advance 2
  pure val

/-- `writeUint16(writer, n)`: pushes `[n >>> 8, n & 0xFF]`. -/
def writeUint16 (n : Nat) : List Nat := [n / 256 % 256, n % 256]

/-- `readUint32` (big-endian; the source computes with 32-bit ops and corrects
the sign with `>>> 0`, which for byte inputs equals this value). -/
def readUint32 : ReadM Nat := do
  requireBytes 4
  let bs ← bytes
  let val := bs.getD 0 0 * 16777216 + bs.getD 1 0 * 65536 +
    bs.getD 2 0 * 256 + bs.getD 3 0
  advance 4
  pure val

/-- `writeUint32(writer, n)`. -/
def writeUint32 (n : Nat) : List Nat :=
  [n / 16777216 % 256, n / 65536 % 256, n / 256 % 256, n % 256]

/-- The `bytes: 1 | 2 | 4` length-prefix width parameter. -/
inductive Width where
  | w1
  | w2
  | w4
  deriving DecidableEq, Repr

def Width.val : Width → Nat
  | .w1 => 1
  | .w2 => 2
  | .w4 => 4

/-- The range of lengths representable in a prefix of the given width. -/
def Width.range : Width → Nat
  | .w1 => 256
  | .w2 => 65536
  | .w4 => 4294967296

def readUintOf : Width → ReadM Nat
  | .w1 => readUint8
  | .w2 => readUint16
  | .w4 => readUint32

def writeUintOf : Width → Nat → List Nat
  | .w1 => writeUint8
  | .w2 => writeUint16
  | .w4 => writeUint32

/-- `readLenBuffer(reader, bytes)`: length prefix, then that many raw bytes. -/
def readLenBuffer (w : Width) : ReadM (List Nat) := do
  let length ← readUintOf w
  requireBytes length
  let bs ← bytes
  let buffer := bs.take length
  advance length
  pure buffer

/-- `writeLenBuffer(writer, bytes, buffer)`. -/
def writeLenBuffer (w : Width) (buffer : List Nat) : List Nat :=
  writeUintOf w buffer.length ++ buffer

/-! ### Evaluation lemmas for the integer reads -/

@[simp] theorem readUint8_run_cons (b : Nat) (s : List Nat) :
    readUint8 (b :: s) = (.ok b, s) := by
  have h1 : (1 : Nat) ≤ (b :: s).length := by simp
  simp [readUint8, bind_run, requireBytes_run_ge h1, bytes, advance]

@[simp] theorem readUint8_run_nil : readUint8 [] = (.error .invalidFormat, []) := by
  simp [readUint8, bind_run, requireBytes]

theorem readUint8_run_short {s : List Nat} (h : s.length < 1) :
    readUint8 s = (.error .invalidFormat, s) := by
  simp [readUint8, bind_run, requireBytes, h]

@[simp] theorem readUint16_run_cons (b0 b1 : Nat) (s : List Nat) :
    readUint16 (b0 :: b1 :: s) = (.ok (b0 * 256 + b1), s) := by
  have h1 : (2 : Nat) ≤ (b0 :: b1 :: s).length := by simp
  simp [readUint16, bind_run, requireBytes_run_ge h1, bytes, advance]

theorem readUint16_run_short {s : List Nat} (h : s.length < 2) :
    readUint16 s = (.error .invalidFormat, s) := by
  simp [readUint16, bind_run, requireBytes, h]

@[simp] theorem readUint32_run_cons (b0 b1 b2 b3 : Nat) (s : List Nat) :
    readUint32 (b0 :: b1 :: b2 :: b3 :: s) =
      (.ok (b0 * 16777216 + b1 * 65536 + b2 * 256 + b3), s) := by
  have h1 : (4 : Nat) ≤ (b0 :: b1 :: b2 :: b3 :: s).length := by simp
  simp [readUint32, bind_run, requireBytes_run_ge h1, bytes, advance]

theorem readUint32_run_short {s : List Nat} (h : s.length < 4) :
    readUint32 s = (.error .invalidFormat, s) := by
  simp [readUint32, bind_run, requireBytes, h]

/-! ### Round-trip lemmas for the integer reads -/

theorem parsesTo_readUint8 {n : Nat} (h : n < 256) :
    ParsesTo readUint8 (writeUint8 n) n := by
  intro rest
  simp [writeUint8, Nat.mod_eq_of_lt h]

theorem parsesTo_readUint16 {n : Nat} (h : n < 65536) :
    ParsesTo readUint16 (writeUint16 n) n := by
  intro rest
  simp only [writeUint16, List.cons_append, List.nil_append, readUint16_run_cons]
  congr 1
  congr 1
  omega

theorem parsesTo_readUint32 {n : Nat} (h : n < 4294967296) :
    ParsesTo readUint32 (writeUint32 n) n := by
  intro rest
  simp only [writeUint32, List.cons_append, List.nil_append, readUint32_run_cons]
  congr 1
  congr 1
  omega

theorem parsesTo_readUintOf {w : Width} {n : Nat} (h : n < w.range) :
    ParsesTo (readUintOf w) (writeUintOf w n) n := by
  cases w
  · exact parsesTo_readUint8 h
  · exact parsesTo_readUint16 h
  · exact parsesTo_readUint32 h

theorem writeUintOf_length (w : Width) (n : Nat) :
    (writeUintOf w n).length = w.val := by
  cases w <;> simp [writeUintOf, writeUint8, writeUint16, writeUint32, Width.val]

theorem parsesTo_readLenBuffer {w : Width} {buffer : List Nat}
    (h : buffer.length < w.range) :
    ParsesTo (readLenBuffer w) (writeLenBuffer w buffer) buffer := by
  unfold readLenBuffer writeLenBuffer
  apply (parsesTo_readUintOf h).bind
  intro rest
  have hge : buffer.length ≤ (buffer ++ rest).length := by simp
  rw [bind_run_ok (requireBytes_run_ge hge)]
  rw [bind_run_ok (bytes_run (buffer ++ rest))]
  rw [List.take_left]
  rw [bind_run_ok (advance_run buffer.length (buffer ++ rest))]
  rw [List.drop_left]
  rfl

/-! ## UTF-8 (the platform `TextEncoder`/`TextDecoder` pair)

Modelled from the spec: the source delegates string ⇄ bytes conversion to the
browser's `TextEncoder`/`TextDecoder` ("readLenString/writeLenString layer
UTF-8 encode/decode on top"), which are not part of the repository.  We model a
JS string as its list of Unicode scalar values and implement the WHATWG UTF-8
codec executably; on malformed input the decoder emits U+FFFD replacement
characters, as `TextDecoder` does in its default non-fatal mode. -/

/-- A JS string, as the list of its Unicode scalar values. -/
abbrev JsString := List Nat

/-- A Unicode scalar value: a code point that is not a surrogate. -/
def ValidScalar (c : Nat) : Prop := c < 0xD800 ∨ (0xE000 ≤ c ∧ c < 0x110000)

instance (c : Nat) : Decidable (ValidScalar c) := by
  unfold ValidScalar; infer_instance

/-- A UTF-8 continuation byte. -/
def IsCont (b : Nat) : Prop := 0x80 ≤ b ∧ b ≤ 0xBF

instance (b : Nat) : Decidable (IsCont b) := by
  unfold IsCont; infer_instance

/-- UTF-8 encoding of one scalar value. -/
def utf8EncodeChar (c : Nat) : List Nat :=
  if c < 0x80 then [c]
  else if c < 0x800 then [0xC0 + c / 64, 0x80 + c % 64]
  else if c < 0x10000 then
    [0xE0 + c / 4096, 0x80 + c / 64 % 64, 0x80 + c % 64]
  else
    [0xF0 + c / 262144, 0x80 + c / 4096 % 64, 0x80 + c / 64 % 64, 0x80 + c % 64]

/-- UTF-8 encoding of a string (`new TextEncoder().encode(s)`). -/
def utf8Encode (s : JsString) : List Nat := (s.map utf8EncodeChar).flatten

/-- UTF-8 decoding of a byte sequence (`new TextDecoder().decode(bytes)`),
with U+FFFD replacement on malformed sequences per the WHATWG decoder. -/
def utf8Decode : List Nat → JsString
  | [] => []
  | b :: r =>
    if b < 0x80 then b :: utf8Decode r
    else if 0xC2 ≤ b ∧ b ≤ 0xDF then
      match r with
      | b1 :: r1 =>
        if IsCont b1 then ((b - 0xC0) * 64 + (b1 - 0x80)) :: utf8Decode r1
        else 0xFFFD :: utf8Decode (b1 :: r1)
      | [] => [0xFFFD]
    else if 0xE0 ≤ b ∧ b ≤ 0xEF then
      match r with
      | b1 :: r1 =>
        if (b = 0xE0 → 0xA0 ≤ b1) ∧ (b = 0xED → b1 ≤ 0x9F) ∧ IsCont b1 then
          match r1 with
          | b2 :: r2 =>
            if IsCont b2 then
              ((b - 0xE0) * 4096 + (b1 - 0x80) * 64 + (b2 - 0x80)) :: utf8Decode r2
            else 0xFFFD :: utf8Decode (b2 :: r2)
          | [] => [0xFFFD]
        else 0xFFFD :: utf8Decode (b1 :: r1)
      | [] => [0xFFFD]
    else if 0xF0 ≤ b ∧ b ≤ 0xF4 then
      match r with
      | b1 :: r1 =>
        if (b = 0xF0 → 0x90 ≤ b1) ∧ (b = 0xF4 → b1 ≤ 0x8F) ∧ IsCont b1 then
          match r1 with
          | b2 :: r2 =>
            if IsCont b2 then
              match r2 with
              | b3 :: r3 =>
                if IsCont b3 then
                  ((b - 0xF0) * 262144 + (b1 - 0x80) * 4096 +
                    (b2 - 0x80) * 64 + (b3 - 0x80)) :: utf8Decode r3
                else 0xFFFD :: utf8Decode (b3 :: r3)
              | [] => [0xFFFD]
            else 0xFFFD :: utf8Decode (b2 :: r2)
          | [] => [0xFFFD]
        else 0xFFFD :: utf8Decode (b1 :: r1)
      | [] => [0xFFFD]
    else 0xFFFD :: utf8Decode r
termination_by l => l.length
decreasing_by all_goals (simp only [List.length_cons]; omega)

theorem utf8Decode_encodeChar_append {c : Nat} (h : ValidScalar c)
    (rest : List Nat) :
    utf8Decode (utf8EncodeChar c ++ rest) = c :: utf8Decode rest := by
  unfold utf8EncodeChar
  by_cases h1 : c < 0x80
  · simp only [if_pos h1, List.cons_append, List.nil_append]
    rw [utf8Decode.eq_def]
    simp [h1]
  · by_cases h2 : c < 0x800
    · simp only [if_neg h1, if_pos h2, List.cons_append, List.nil_append]
      rw [utf8Decode.eq_def]
      have hb : ¬ (0xC0 + c / 64 < 0x80) := by omega
      have hr : 0xC2 ≤ 0xC0 + c / 64 ∧ 0xC0 + c / 64 ≤ 0xDF := by omega
      have hc : IsCont (0x80 + c % 64) := by unfold IsCont; omega
      simp only [if_neg hb, if_pos hr, if_pos hc]
      congr 1
      omega
    · by_cases h3 : c < 0x10000
      · simp only [if_neg h1, if_neg h2, if_pos h3, List.cons_append,
          List.nil_append]
        rw [utf8Decode.eq_def]
        have hb : ¬ (0xE0 + c / 4096 < 0x80) := by omega
        have hb2 : ¬ (0xC2 ≤ 0xE0 + c / 4096 ∧ 0xE0 + c / 4096 ≤ 0xDF) := by
          omega
        have hr : 0xE0 ≤ 0xE0 + c / 4096 ∧ 0xE0 + c / 4096 ≤ 0xEF := by omega
        have hcond : (0xE0 + c / 4096 = 0xE0 → 0xA0 ≤ 0x80 + c / 64 % 64) ∧
            (0xE0 + c / 4096 = 0xED → 0x80 + c / 64 % 64 ≤ 0x9F) ∧
            IsCont (0x80 + c / 64 % 64) := by
          unfold ValidScalar at h
          unfold IsCont
          omega
        have hc2 : IsCont (0x80 + c % 64) := by unfold IsCont; omega
        simp only [if_neg hb, if_neg hb2, if_pos hr, if_pos hcond, if_pos hc2]
        congr 1
        omega
      · simp only [if_neg h1, if_neg h2, if_neg h3, List.cons_append,
          List.nil_append]
        rw [utf8Decode.eq_def]
        have hlt : c < 0x110000 := by unfold ValidScalar at h; omega
        have hb : ¬ (0xF0 + c / 262144 < 0x80) := by omega
        have hb2 : ¬ (0xC2 ≤ 0xF0 + c / 262144 ∧ 0xF0 + c / 262144 ≤ 0xDF) := by
          omega
        have hb3 : ¬ (0xE0 ≤ 0xF0 + c / 262144 ∧ 0xF0 + c / 262144 ≤ 0xEF) := by
          omega
        have hr : 0xF0 ≤ 0xF0 + c / 262144 ∧ 0xF0 + c / 262144 ≤ 0xF4 := by
          omega
        have hcond : (0xF0 + c / 262144 = 0xF0 → 0x90 ≤ 0x80 + c / 4096 % 64) ∧
            (0xF0 + c / 262144 = 0xF4 → 0x80 + c / 4096 % 64 ≤ 0x8F) ∧
            IsCont (0x80 + c / 4096 % 64) := by
          unfold IsCont
          omega
        have hc2 : IsCont (0x80 + c / 64 % 64) := by unfold IsCont; omega
        have hc3 : IsCont (0x80 + c % 64) := by unfold IsCont; omega
        simp only [if_neg hb, if_neg hb2, if_neg hb3, if_pos hr, if_pos hcond,
          if_pos hc2, if_pos hc3]
        congr 1
        omega

/-- A valid string round-trips through UTF-8. -/
theorem utf8Decode_utf8Encode {s : JsString} (h : ∀ c ∈ s, ValidScalar c) :
    utf8Decode (utf8Encode s) = s := by
  induction s with
  | nil => simp [utf8Encode, utf8Decode]
  | cons c cs ih =>
    have hc : ValidScalar c := h c (List.mem_cons_self c cs)
    have hcs : ∀ x ∈ cs, ValidScalar x := fun x hx => h x (List.mem_cons_of_mem c hx)
    unfold utf8Encode at *
    simp only [List.map_cons, List.flatten_cons]
    rw [utf8Decode_encodeChar_append hc, ih hcs]

/-- `readLenString(reader, bytes)`. -/
def readLenString (w : Width) : ReadM JsString := do
  let buf ← readLenBuffer w
  pure (utf8Decode buf)

/-- `writeLenString(writer, bytes, s)`. -/
def writeLenString (w : Width) (s : JsString) : List Nat :=
  writeLenBuffer w (utf8Encode s)

theorem parsesTo_readLenString {w : Width} {s : JsString}
    (hv : ∀ c ∈ s, ValidScalar c) (h : (utf8Encode s).length < w.range) :
    ParsesTo (readLenString w) (writeLenString w s) s := by
  unfold readLenString writeLenString
  have := (parsesTo_readLenBuffer h).bind (f := fun buf => pure (utf8Decode buf))
    (q := []) (w := utf8Decode (utf8Encode s)) (ParsesTo.pure _)
  rw [List.append_nil] at this
  rw [utf8Decode_utf8Encode hv] at this
  exact this

/-! ### Failure characterization and over-read safety of the primitives -/

/-- The big-endian integer denoted by the first `w.val` entries of `s`. -/
def uintAt (w : Width) (s : List Nat) : Nat :=
  match w with
  | .w1 => s.getD 0 0
  | .w2 => s.getD 0 0 * 256 + s.getD 1 0
  | .w4 => s.getD 0 0 * 16777216 + s.getD 1 0 * 65536 +
      s.getD 2 0 * 256 + s.getD 3 0

theorem readUintOf_run_ge {w : Width} {s : List Nat} (h : w.val ≤ s.length) :
    readUintOf w s = (.ok (uintAt w s), s.drop w.val) := by
  cases w <;>
    simp [readUintOf, uintAt, Width.val, readUint8, readUint16, readUint32,
      bind_run, requireBytes_run_ge (by simpa [Width.val] using h), bytes,
      advance]

theorem readUintOf_run_short {w : Width} {s : List Nat} (h : s.length < w.val) :
    readUintOf w s = (.error .invalidFormat, s) := by
  cases w
  · exact readUint8_run_short h
  · exact readUint16_run_short h
  · exact readUint32_run_short h

theorem readLenBuffer_run_prefix_short {w : Width} {s : List Nat}
    (h : s.length < w.val) :
    readLenBuffer w s = (.error .invalidFormat, s) := by
  unfold readLenBuffer
  rw [bind_run_error (readUintOf_run_short h)]

theorem readLenBuffer_run_body_short {w : Width} {s : List Nat}
    (hw : w.val ≤ s.length) (h : s.length - w.val < uintAt w s) :
    readLenBuffer w s = (.error .invalidFormat, s.drop w.val) := by
  unfold readLenBuffer
  rw [bind_run_ok (readUintOf_run_ge hw)]
  have hlt : (s.drop w.val).length < uintAt w s := by
    simp only [List.length_drop]
    exact h
  rw [bind_run_error (requireBytes_run_lt hlt)]

theorem readLenBuffer_run_ok {w : Width} {s : List Nat}
    (hw : w.val ≤ s.length) (h : uintAt w s ≤ s.length - w.val) :
    readLenBuffer w s =
      (.ok ((s.drop w.val).take (uintAt w s)), s.drop (w.val + uintAt w s)) := by
  unfold readLenBuffer
  rw [bind_run_ok (readUintOf_run_ge hw)]
  have hge : uintAt w s ≤ (s.drop w.val).length := by
    simp only [List.length_drop]
    exact h
  rw [bind_run_ok (requireBytes_run_ge hge)]
  rw [bind_run_ok (bytes_run _)]
  rw [bind_run_ok (advance_run _ _)]
  rw [List.drop_drop]
  rfl

/-- Over-read safety: whenever a read succeeds, it consumed a prefix of the
input of some length `k`, and its outcome is fully determined by that prefix —
re-running it on the consumed prefix followed by any other continuation
produces the same value.  The bytes beyond the consumed prefix are never
inspected. -/
def NeverOverReads (m : ReadM α) : Prop :=
  ∀ s v rest, m s = (.ok v, rest) →
    ∃ k, k ≤ s.length ∧ rest = s.drop k ∧
      ∀ ext, m (s.take k ++ ext) = (.ok v, ext)

theorem getD_take_append {s ext : List Nat} {k i : Nat} (hik : i < k)
    (hks : k ≤ s.length) : (s.take k ++ ext).getD i 0 = s.getD i 0 := by
  simp only [List.getD_eq_getElem?_getD]
  rw [List.getElem?_append]
  rw [if_pos (by simp only [List.length_take]; omega)]
  rw [List.getElem?_take]
  rw [if_pos hik]

theorem uintAt_take_append {w : Width} {s ext : List Nat} {k : Nat}
    (hwk : w.val ≤ k) (hks : k ≤ s.length) :
    uintAt w (s.take k ++ ext) = uintAt w s := by
  cases w
  case w1 =>
    simp only [Width.val] at hwk
    simp only [uintAt]
    rw [getD_take_append (by omega) hks]
  case w2 =>
    simp only [Width.val] at hwk
    simp only [uintAt]
    rw [getD_take_append (i := 0) (by omega) hks,
      getD_take_append (i := 1) (by omega) hks]
  case w4 =>
    simp only [Width.val] at hwk
    simp only [uintAt]
    rw [getD_take_append (i := 0) (by omega) hks,
      getD_take_append (i := 1) (by omega) hks,
      getD_take_append (i := 2) (by omega) hks,
      getD_take_append (i := 3) (by omega) hks]

theorem neverOverReads_readUintOf (w : Width) : NeverOverReads (readUintOf w) := by
  intro s v rest h
  by_cases hw : w.val ≤ s.length
  · rw [readUintOf_run_ge hw, Prod.mk.injEq, Except.ok.injEq] at h
    obtain ⟨h1, h2⟩ := h
    subst h1
    refine ⟨w.val, hw, h2.symm, ?_⟩
    intro ext
    have hlen : w.val ≤ (s.take w.val ++ ext).length := by
      simp only [List.length_append, List.length_take]
      omega
    rw [readUintOf_run_ge hlen]
    rw [uintAt_take_append (Nat.le_refl _) hw]
    have hdrop : (s.take w.val ++ ext).drop w.val = ext := by
      rw [List.drop_left' (List.length_take_of_le hw)]
    rw [hdrop]
  · rw [readUintOf_run_short (by omega)] at h
    exact absurd h (by simp)

theorem neverOverReads_readLenBuffer (w : Width) :
    NeverOverReads (readLenBuffer w) := by
  intro s v rest h
  by_cases hw : w.val ≤ s.length
  · by_cases hb : uintAt w s ≤ s.length - w.val
    · rw [readLenBuffer_run_ok hw hb, Prod.mk.injEq, Except.ok.injEq] at h
      obtain ⟨h1, h2⟩ := h
      refine ⟨w.val + uintAt w s, by omega, h2.symm, ?_⟩
      intro ext
      set k := w.val + uintAt w s with hk
      have hks : k ≤ s.length := by omega
      have hlen : w.val ≤ (s.take k ++ ext).length := by
        simp only [List.length_append, List.length_take]
        omega
      have huint : uintAt w (s.take k ++ ext) = uintAt w s :=
        uintAt_take_append (by omega) hks
      have hok : uintAt w (s.take k ++ ext) ≤ (s.take k ++ ext).length - w.val := by
        rw [huint]
        simp only [List.length_append, List.length_take]
        omega
      rw [readLenBuffer_run_ok hlen hok, huint]
      have hdrop : (s.take k ++ ext).drop w.val = (s.take k).drop w.val ++ ext :=
        List.drop_append_of_le_length (by simp only [List.length_take]; omega)
      have htk : (s.take k).drop w.val = (s.drop w.val).take (uintAt w s) := by
        rw [List.drop_take]
        congr 1
        omega
      have hlen2 : ((s.drop w.val).take (uintAt w s)).length = uintAt w s := by
        simp only [List.length_take, List.length_drop]
        omega
      rw [Prod.mk.injEq, Except.ok.injEq]
      constructor
      · rw [hdrop, htk, ← h1]
        rw [List.take_left' hlen2]
      · exact List.drop_left' (by rw [List.length_take_of_le hks, hk])
    · rw [readLenBuffer_run_body_short hw (by omega)] at h
      exact absurd h (by simp)
  · rw [readLenBuffer_run_prefix_short (by omega)] at h
    exact absurd h (by simp)

theorem neverOverReads_map {m : ReadM α} (f : α → β) (h : NeverOverReads m) :
    NeverOverReads (m >>= fun x => pure (f x)) := by
  intro s v rest hrun
  rw [bind_run] at hrun
  rcases hm : m s with ⟨out, s1⟩
  rw [hm] at hrun
  cases out with
  | error e => exact absurd hrun (by simp)
  | ok a =>
    simp only [pure_run, Prod.mk.injEq, Except.ok.injEq] at hrun
    obtain ⟨h1, h2⟩ := hrun
    obtain ⟨k, hk, hrest, hext⟩ := h s a s1 hm
    refine ⟨k, hk, by rw [← h2, hrest], ?_⟩
    intro ext
    rw [bind_run_ok (hext ext)]
    rw [h1]
    rfl

theorem readLenString_run_prefix_short {w : Width} {s : List Nat}
    (h : s.length < w.val) :
    readLenString w s = (.error .invalidFormat, s) := by
  unfold readLenString
  rw [bind_run_error (readLenBuffer_run_prefix_short h)]

theorem readLenString_run_body_short {w : Width} {s : List Nat}
    (hw : w.val ≤ s.length) (h : s.length - w.val < uintAt w s) :
    readLenString w s = (.error .invalidFormat, s.drop w.val) := by
  unfold readLenString
  rw [bind_run_error (readLenBuffer_run_body_short hw h)]

/-- **C7**: for every reader state, each read primitive (readUint8/16/32,
readLenBuffer, readLenString) fails with a format error whenever fewer bytes
remain than the read requires — including the case where a successfully decoded
length-prefix value exceeds the number of remaining bytes — and no read ever
accesses bytes beyond the end of the underlying byte sequence: a successful
read consumes a prefix of the input and its outcome is fully determined by
that prefix. -/
theorem claim7_reads_require_bytes_and_never_overread :
    (∀ s : List Nat, s.length < 1 → readUint8 s = (.error .invalidFormat, s)) ∧
    (∀ s : List Nat, s.length < 2 → readUint16 s = (.error .invalidFormat, s)) ∧
    (∀ s : List Nat, s.length < 4 → readUint32 s = (.error .invalidFormat, s)) ∧
    (∀ (w : Width) (s : List Nat), s.length < w.val →
      readLenBuffer w s = (.error .invalidFormat, s)) ∧
    (∀ (w : Width) (s : List Nat), w.val ≤ s.length →
      s.length - w.val < uintAt w s →
      readLenBuffer w s = (.error .invalidFormat, s.drop w.val)) ∧
    (∀ (w : Width) (s : List Nat), s.length < w.val →
      readLenString w s = (.error .invalidFormat, s)) ∧
    (∀ (w : Width) (s : List Nat), w.val ≤ s.length →
      s.length - w.val < uintAt w s →
      readLenString w s = (.error .invalidFormat, s.drop w.val)) ∧
    NeverOverReads readUint8 ∧ NeverOverReads readUint16 ∧
    NeverOverReads readUint32 ∧ (∀ w, NeverOverReads (readLenBuffer w)) ∧
    (∀ w, NeverOverReads (readLenString w)) := by
  refine ⟨fun s h => readUint8_run_short h, fun s h => readUint16_run_short h,
    fun s h => readUint32_run_short h,
    fun w s h => readLenBuffer_run_prefix_short h,
    fun w s hw h => readLenBuffer_run_body_short hw h,
    fun w s h => readLenString_run_prefix_short h,
    fun w s hw h => readLenString_run_body_short hw h,
    neverOverReads_readUintOf .w1, neverOverReads_readUintOf .w2,
    neverOverReads_readUintOf .w4, neverOverReads_readLenBuffer,
    fun w => neverOverReads_map utf8Decode (neverOverReads_readLenBuffer w)⟩

/-- Witness for C7 at concrete inputs: a length prefix of 5 with only 2 bytes
following fails with a format error, and a bare 1-byte input is too short for
readUint16. -/
theorem claim7_witness :
    readLenBuffer .w1 [5, 1, 2] = (.error .invalidFormat, [1, 2]) ∧
    readUint16 [7] = (.error .invalidFormat, [7]) :=
  ⟨claim7_reads_require_bytes_and_never_overread.2.2.2.2.1 .w1 [5, 1, 2]
      (by decide) (by decide),
    claim7_reads_require_bytes_and_never_overread.2.1 [7] (by decide)⟩

/-- **C8**: for every supported integer width and every in-range unsigned
value, and for every buffer or string content within the length-prefix
width's range, reading back what was written yields the original value, and
the cursor has consumed the entire output with zero bytes remaining. -/
theorem claim8_write_read_roundtrip :
    (∀ n : Nat, n < 256 → readUint8 (writeUint8 n) = (.ok n, [])) ∧
    (∀ n : Nat, n < 65536 → readUint16 (writeUint16 n) = (.ok n, [])) ∧
    (∀ n : Nat, n < 4294967296 → readUint32 (writeUint32 n) = (.ok n, [])) ∧
    (∀ (w : Width) (buffer : List Nat), (∀ b ∈ buffer, b < 256) →
      buffer.length < w.range →
      readLenBuffer w (writeLenBuffer w buffer) = (.ok buffer, [])) ∧
    (∀ (w : Width) (s : JsString), (∀ c ∈ s, ValidScalar c) →
      (utf8Encode s).length < w.range →
      readLenString w (writeLenString w s) = (.ok s, [])) :=
  ⟨fun _ h => (parsesTo_readUint8 h).run_exact,
    fun _ h => (parsesTo_readUint16 h).run_exact,
    fun _ h => (parsesTo_readUint32 h).run_exact,
    fun _ _ _ h => (parsesTo_readLenBuffer h).run_exact,
    fun _ _ hv h => (parsesTo_readLenString hv h).run_exact⟩

/-- Witness for C8 at concrete inputs, mirroring the source's own test values,
including a string with a multi-byte UTF-8 character (U+20AC). -/
theorem claim8_witness :
    readUint16 (writeUint16 63195) = (.ok 63195, []) ∧
    readLenBuffer .w2 (writeLenBuffer .w2 [1, 2, 3]) = (.ok [1, 2, 3], []) ∧
    readLenString .w1 (writeLenString .w1 [72, 8364]) = (.ok [72, 8364], []) :=
  ⟨claim8_write_read_roundtrip.2.1 63195 (by decide),
    claim8_write_read_roundtrip.2.2.2.1 .w2 [1, 2, 3] (by decide) (by decide),
    claim8_write_read_roundtrip.2.2.2.2 .w1 [72, 8364] (by decide) (by decide)⟩

/-- **C10**: failed reads are not atomic with respect to the cursor: whenever
the remaining input begins with a well-formed length prefix whose value exceeds
the number of bytes remaining after the prefix, readLenBuffer throws a format
error with the cursor left advanced by exactly the prefix width past its
pre-call position — the reader is not restored to its pre-call state. -/
theorem claim10_failed_readLenBuffer_cursor_advanced :
    ∀ (w : Width) (s : List Nat), w.val ≤ s.length →
      s.length - w.val < uintAt w s →
      readLenBuffer w s = (.error .invalidFormat, s.drop w.val) ∧
        s.drop w.val ≠ s := by
  intro w s hw h
  refine ⟨readLenBuffer_run_body_short hw h, ?_⟩
  intro heq
  have hlen : (s.drop w.val).length = s.length := by rw [heq]
  rw [List.length_drop] at hlen
  have hv : 1 ≤ w.val := by cases w <;> decide
  omega

/-- Witness for C10: a 2-byte length prefix decoding to 9 with only 3 bytes
left leaves the cursor exactly 2 bytes past where it started. -/
theorem claim10_witness :
    readLenBuffer .w2 [0, 9, 1, 2, 3] = (.error .invalidFormat, [1, 2, 3]) ∧
    ([1, 2, 3] : List Nat) ≠ [0, 9, 1, 2, 3] :=
  claim10_failed_readLenBuffer_cursor_advanced .w2 [0, 9, 1, 2, 3]
    (by decide) (by decide)

/-! ## Key codec (`src/lib/crypto.ts`)

The native WebCrypto EC key handles are modelled symbolically: a key pair is
identified by a natural-number scalar (the private `d` component); the public
key of the pair carries the same scalar, standing for the point `d·G`.  The
x-coordinate bytes of the exported point are modelled by `coordBytes`, and the
y-parity bit (the low bit of the last byte of the uncompressed export, which
the code packs into bit 0 of the serialized tag byte) by `scalar % 2`. -/

inductive KeyAlgName where
  | ecdsa
  | ecdh
  deriving DecidableEq, Repr

inductive NamedCurve where
  | p256
  | p384
  | p521
  deriving DecidableEq, Repr

/-- `keyLen(curve)`: coordinate byte length per curve. -/
def keyLen : NamedCurve → Nat
  | .p256 => 32
  | .p384 => 48
  | .p521 => 66

theorem keyLen_pos (c : NamedCurve) : 1 ≤ keyLen c := by cases c <;> decide

/-- `curveNum` as assigned in `StoredPublicKey.new`. -/
def curveTag : NamedCurve → Nat
  | .p256 => 0
  | .p384 => 1
  | .p521 => 2

/-- The curve-tag switch in `StoredPublicKey.readFrom` (cases 0, 1, 2,
default → `OutdatedError`). -/
def tagCurve (t : Nat) : Option NamedCurve :=
  if t = 0 then some .p256
  else if t = 1 then some .p384
  else if t = 2 then some .p521
  else none

@[simp] theorem tagCurve_curveTag (c : NamedCurve) :
    tagCurve (curveTag c) = some c := by cases c <;> rfl

/-- A native public-key handle (`PublicKey` in the source). -/
structure PublicKey where
  alg : KeyAlgName
  curve : NamedCurve
  scalar : Nat
  deriving DecidableEq, Repr

/-- A native private-key handle (`PrivateKey` in the source). -/
structure PrivateKey where
  alg : KeyAlgName
  curve : NamedCurve
  scalar : Nat
  deriving DecidableEq, Repr

/-- The x-coordinate byte block of a key with scalar `d`: `keyLen c` bytes
identifying the point symbolically. -/
def coordBytes (c : NamedCurve) (d : Nat) : List Nat :=
  d :: List.replicate (keyLen c - 1) 0

@[simp] theorem length_coordBytes (c : NamedCurve) (d : Nat) :
    (coordBytes c d).length = keyLen c := by
  have := keyLen_pos c
  simp only [coordBytes, List.length_cons, List.length_replicate]
  omega

/-- `crypto.subtle.importKey("raw", raw, { name, namedCurve }, …)` on a
compressed point: succeeds exactly when `raw` is a well-formed compressed
encoding (tag byte 2 or 3 consistent with the point's parity, followed by the
x-coordinate block); otherwise the platform rejects the bytes as malformed
(the `TypeError` the source converts to `InvalidFormatError`). -/
def importRawKey (alg : KeyAlgName) (c : NamedCurve) (raw : List Nat) :
    Option PublicKey :=
  match raw with
  | b :: rest =>
    if b = 2 + rest.headD 0 % 2 ∧ rest = coordBytes c (rest.headD 0) then
      some ⟨alg, c, rest.headD 0⟩
    else none
  | [] => none

/-- `StoredPublicKey`: the native handle plus its canonical serialized form. -/
structure StoredPublicKey where
  inner : PublicKey
  serialized : List Nat
  deriving DecidableEq, Repr

/-- `StoredPublicKey.new(inner)`: export the raw point, keep the tag byte and
one coordinate, and pack `curveNum << 2 | 2 | parity` into byte 0. -/
def StoredPublicKey.new (inner : PublicKey) : StoredPublicKey :=
  ⟨inner,
    (curveTag inner.curve * 4 + 2 + inner.scalar % 2) ::
      coordBytes inner.curve inner.scalar⟩

/-- `raw[0] &= 0b11` (performed on the mutable copy before import). -/
def maskHead : List Nat → List Nat
  | b :: r => b % 4 :: r
  | [] => []

/-- `StoredPublicKey.readFrom(reader, algorithm, keyOps)`.  The curve tag is
taken from `reader.bytes[0] >>> 2` (an out-of-range read yields `undefined`,
which the unsigned shift coerces to 0, hence `headD 0`). -/
def StoredPublicKey.readFrom (alg : KeyAlgName) : ReadM StoredPublicKey := do
  let bs ← bytes
  match tagCurve (bs.headD 0 / 4) with
  | none => fail .outdated
  | some namedCurve => do
    requireBytes (keyLen namedCurve + 1)
    let bs2 ← bytes
    let serialized := bs2.take (keyLen namedCurve + 1)
    advance (keyLen namedCurve + 1)
    match importRawKey alg namedCurve (maskHead serialized) with
    | some inner => pure ⟨inner, serialized⟩
    | none => fail .invalidFormat

/-- `StoredPublicKey.writeTo(writer)`: emit the serialized bytes verbatim. -/
def StoredPublicKey.writeTo (k : StoredPublicKey) : List Nat := k.serialized

/-- A well-formed stored public key for a given algorithm: the handle carries
that algorithm and the serialized bytes are the canonical export of the
handle (as produced by `StoredPublicKey.new` and by `readFrom`). -/
def StoredPublicKey.WF (k : StoredPublicKey) (alg : KeyAlgName) : Prop :=
  k.inner.alg = alg ∧ k.serialized = (StoredPublicKey.new k.inner).serialized

instance (k : StoredPublicKey) (alg : KeyAlgName) : Decidable (k.WF alg) := by
  unfold StoredPublicKey.WF
  infer_instance

theorem parsesTo_StoredPublicKey_readFrom {k : StoredPublicKey}
    {alg : KeyAlgName} (h : k.WF alg) :
    ParsesTo (StoredPublicKey.readFrom alg) k.serialized k := by
  obtain ⟨halg, hser⟩ := h
  rcases k with ⟨⟨ialg, c, d⟩, ser⟩
  simp only at halg
  subst halg
  simp only [StoredPublicKey.new] at hser
  subst hser
  intro rest
  unfold StoredPublicKey.readFrom
  rw [bind_run_ok (bytes_run _)]
  simp only [List.cons_append, List.headD_cons]
  have hdiv : (curveTag c * 4 + 2 + d % 2) / 4 = curveTag c := by omega
  rw [hdiv, tagCurve_curveTag]
  dsimp only
  have hlen : keyLen c + 1 ≤
      ((curveTag c * 4 + 2 + d % 2) :: (coordBytes c d ++ rest)).length := by
    simp only [List.length_cons, List.length_append, length_coordBytes]
    omega
  rw [bind_run_ok (requireBytes_run_ge hlen)]
  rw [bind_run_ok (bytes_run _)]
  have hser2 : (curveTag c * 4 + 2 + d % 2) :: (coordBytes c d ++ rest) =
      ((curveTag c * 4 + 2 + d % 2) :: coordBytes c d) ++ rest := by simp
  have hserlen : ((curveTag c * 4 + 2 + d % 2) :: coordBytes c d).length =
      keyLen c + 1 := by
    simp only [List.length_cons, length_coordBytes]
  rw [hser2, List.take_left' hserlen]
  rw [bind_run_ok (advance_run _ _)]
  rw [List.drop_left' hserlen]
  have hmask : maskHead ((curveTag c * 4 + 2 + d % 2) :: coordBytes c d) =
      (2 + d % 2) :: coordBytes c d := by
    simp only [maskHead]
    congr 1
    omega
  rw [hmask]
  have himp : importRawKey ialg c ((2 + d % 2) :: coordBytes c d) =
      some ⟨ialg, c, d⟩ := by
    simp [importRawKey, coordBytes]
  rw [himp]
  rfl

theorem StoredPublicKey_readFrom_run_outdated {alg : KeyAlgName}
    {s : List Nat} (h : tagCurve (s.headD 0 / 4) = none) :
    StoredPublicKey.readFrom alg s = (.error .outdated, s) := by
  unfold StoredPublicKey.readFrom
  rw [bind_run_ok (bytes_run _)]
  rw [h]
  rfl

theorem StoredPublicKey_readFrom_run_short {alg : KeyAlgName}
    {s : List Nat} {c : NamedCurve} (hc : tagCurve (s.headD 0 / 4) = some c)
    (h : s.length < keyLen c + 1) :
    StoredPublicKey.readFrom alg s = (.error .invalidFormat, s) := by
  unfold StoredPublicKey.readFrom
  rw [bind_run_ok (bytes_run _)]
  rw [hc]
  dsimp only
  rw [bind_run_error (requireBytes_run_lt h)]

theorem StoredPublicKey_readFrom_run_import_fail {alg : KeyAlgName}
    {s : List Nat} {c : NamedCurve} (hc : tagCurve (s.headD 0 / 4) = some c)
    (hlen : keyLen c + 1 ≤ s.length)
    (him : importRawKey alg c (maskHead (s.take (keyLen c + 1))) = none) :
    StoredPublicKey.readFrom alg s =
      (.error .invalidFormat, s.drop (keyLen c + 1)) := by
  unfold StoredPublicKey.readFrom
  rw [bind_run_ok (bytes_run _)]
  rw [hc]
  dsimp only
  rw [bind_run_ok (requireBytes_run_ge hlen)]
  rw [bind_run_ok (bytes_run _)]
  rw [bind_run_ok (advance_run _ _)]
  rw [him]
  rfl

/-- **C6**: StoredPublicKey parsing classifies its failures exactly as: an
unrecognized curve tag in the first byte fails with an outdated-version error;
too few remaining bytes for the tag's expected key length (1 + 32/48/66) fails
with a format error; and when the underlying cryptographic key import rejects
the decompressed point bytes as malformed, parsing fails with a format error
rather than propagating an uncaught exception. -/
theorem claim6_storedPublicKey_parse_failures :
    (∀ (alg : KeyAlgName) (s : List Nat), tagCurve (s.headD 0 / 4) = none →
      StoredPublicKey.readFrom alg s = (.error .outdated, s)) ∧
    (∀ (alg : KeyAlgName) (s : List Nat) (c : NamedCurve),
      tagCurve (s.headD 0 / 4) = some c → s.length < keyLen c + 1 →
      StoredPublicKey.readFrom alg s = (.error .invalidFormat, s)) ∧
    (∀ (alg : KeyAlgName) (s : List Nat) (c : NamedCurve),
      tagCurve (s.headD 0 / 4) = some c → keyLen c + 1 ≤ s.length →
      importRawKey alg c (maskHead (s.take (keyLen c + 1))) = none →
      StoredPublicKey.readFrom alg s =
        (.error .invalidFormat, s.drop (keyLen c + 1))) :=
  ⟨fun _ _ h => StoredPublicKey_readFrom_run_outdated h,
    fun _ _ _ hc h => StoredPublicKey_readFrom_run_short hc h,
    fun _ _ _ hc hlen him =>
      StoredPublicKey_readFrom_run_import_fail hc hlen him⟩

/-- Witness for C6 at concrete inputs: curve tag 3 is outdated; a P-256 tag
with 1 byte is a format error; 33 bytes whose point encoding the import
rejects (tag byte parity inconsistent with the coordinate block) are a format
error with the key's bytes consumed. -/
theorem claim6_witness :
    StoredPublicKey.readFrom .ecdsa [12] = (.error .outdated, [12]) ∧
    StoredPublicKey.readFrom .ecdsa [0] = (.error .invalidFormat, [0]) ∧
    StoredPublicKey.readFrom .ecdsa (0 :: 1 :: List.replicate 31 0) =
      (.error .invalidFormat, []) :=
  ⟨claim6_storedPublicKey_parse_failures.1 .ecdsa [12] (by decide),
    claim6_storedPublicKey_parse_failures.2.1 .ecdsa [0] .p256
      (by decide) (by decide),
    by
      have := claim6_storedPublicKey_parse_failures.2.2 .ecdsa
        (0 :: 1 :: List.replicate 31 0) .p256 (by decide) (by decide)
        (by decide)
      simpa using this⟩

/-! ### Private keys and key pairs -/

/-- `StoredPrivateKey`: the native handle plus the raw scalar bytes. -/
structure StoredPrivateKey where
  inner : PrivateKey
  serialized : List Nat
  deriving DecidableEq, Repr

/-- `StoredPrivateKey.new(inner)`: the serialized form is the raw `d` scalar
(decoded from the JWK export). -/
def StoredPrivateKey.new (inner : PrivateKey) : StoredPrivateKey :=
  ⟨inner, coordBytes inner.curve inner.scalar⟩

/-- `crypto.subtle.importKey("jwk", …)` with the public key's JWK and `d`
replaced by the serialized scalar bytes: reconstructs the private handle on
the public key's curve and algorithm. -/
def importJwkPrivate (alg : KeyAlgName) (c : NamedCurve) (raw : List Nat) :
    Option PrivateKey :=
  if raw = coordBytes c (raw.headD 0) then some ⟨alg, c, raw.headD 0⟩
  else none

/-- `StoredPrivateKey.readFrom(reader, keyOps, publicKey)`: the scalar length
comes from the already-parsed public key's curve. -/
def StoredPrivateKey.readFrom (publicKey : PublicKey) : ReadM StoredPrivateKey := do
  requireBytes (keyLen publicKey.curve)
  let bs ← bytes
  let serialized := bs.take (keyLen publicKey.curve)
  advance (keyLen publicKey.curve)
  match importJwkPrivate publicKey.alg publicKey.curve serialized with
  | some inner => pure ⟨inner, serialized⟩
  | none => fail .invalidFormat

/-- `StoredPrivateKey.writeTo(writer)`. -/
def StoredPrivateKey.writeTo (k : StoredPrivateKey) : List Nat := k.serialized

/-- A well-formed stored private key relative to its public partner. -/
def StoredPrivateKey.WF (k : StoredPrivateKey) (pub : PublicKey) : Prop :=
  k.inner.alg = pub.alg ∧ k.inner.curve = pub.curve ∧
    k.serialized = coordBytes pub.curve k.inner.scalar

instance (k : StoredPrivateKey) (pub : PublicKey) : Decidable (k.WF pub) := by
  unfold StoredPrivateKey.WF
  infer_instance

theorem parsesTo_StoredPrivateKey_readFrom {k : StoredPrivateKey}
    {pub : PublicKey} (h : k.WF pub) :
    ParsesTo (StoredPrivateKey.readFrom pub) k.serialized k := by
  obtain ⟨halg, hcurve, hser⟩ := h
  rcases k with ⟨⟨ialg, c, d⟩, ser⟩
  simp only at halg hcurve hser
  subst halg
  subst hcurve
  subst hser
  intro rest
  unfold StoredPrivateKey.readFrom
  have hlen : keyLen pub.curve ≤ (coordBytes pub.curve d ++ rest).length := by
    simp only [List.length_append, length_coordBytes]
    omega
  rw [bind_run_ok (requireBytes_run_ge hlen)]
  rw [bind_run_ok (bytes_run _)]
  rw [List.take_left' (length_coordBytes _ _)]
  rw [bind_run_ok (advance_run _ _)]
  rw [List.drop_left' (length_coordBytes _ _)]
  have himp : importJwkPrivate pub.alg pub.curve (coordBytes pub.curve d) =
      some ⟨pub.alg, pub.curve, d⟩ := by
    simp [importJwkPrivate, coordBytes]
  rw [himp]
  rfl

/-- `StoredKeyPair`. -/
structure StoredKeyPair where
  publicKey : StoredPublicKey
  privateKey : StoredPrivateKey
  deriving DecidableEq, Repr

/-- `writeKeyPair(writer, pair)`. -/
def writeKeyPair (pair : StoredKeyPair) : List Nat :=
  pair.publicKey.writeTo ++ pair.privateKey.writeTo

/-- `readKeyPair(reader, algorithm, keyOps)`. -/
def readKeyPair (alg : KeyAlgName) : ReadM StoredKeyPair := do
  let publicKey ← StoredPublicKey.readFrom alg
  let privateKey ← StoredPrivateKey.readFrom publicKey.inner
  pure ⟨publicKey, privateKey⟩

/-- A well-formed stored key pair for an algorithm. -/
def StoredKeyPair.WF (pair : StoredKeyPair) (alg : KeyAlgName) : Prop :=
  pair.publicKey.WF alg ∧ pair.privateKey.WF pair.publicKey.inner

instance (pair : StoredKeyPair) (alg : KeyAlgName) : Decidable (pair.WF alg) := by
  unfold StoredKeyPair.WF
  infer_instance

theorem parsesTo_readKeyPair {pair : StoredKeyPair} {alg : KeyAlgName}
    (h : pair.WF alg) : ParsesTo (readKeyPair alg) (writeKeyPair pair) pair := by
  obtain ⟨hpub, hpriv⟩ := h
  unfold readKeyPair writeKeyPair
  apply (parsesTo_StoredPublicKey_readFrom hpub).bind
  have := (parsesTo_StoredPrivateKey_readFrom hpriv).bind
    (f := fun privateKey => pure (⟨pair.publicKey, privateKey⟩ : StoredKeyPair))
    (q := []) (ParsesTo.pure _)
  rw [List.append_nil] at this
  exact this

/-! ## Symbolic WebCrypto primitives

Modelled from the spec: the WebCrypto suite (`crypto.subtle`) is external to
the repository; the spec describes ECDH key agreement deriving a shared
AES-GCM key, AES-256-GCM authenticated encryption binding ciphertext to
associated data, ECDSA signatures, PBKDF2 password derivation and SHA-256
digests.  We model them as ideal deterministic primitives. -/

/-- ECDH: the shared secret of the key pair with scalars `a` and `b` depends
only on the unordered pair `{a, b}`, so deriving with (my private, their
public) equals deriving with (their private, my public). -/
def ecdhDerive (pub : PublicKey) (priv : PrivateKey) : Nat :=
  Nat.pair (min pub.scalar priv.scalar) (max pub.scalar priv.scalar)

/-- Ideal deterministic ECDSA signature bytes over a message under a hash
algorithm (tag 0 = SHA-256, 1 = SHA-384, 2 = SHA-512, as in the source's
`signatureHash` switch). -/
def ecdsaSignBytes (priv : PrivateKey) (hashTag : Nat) (msg : List Nat) :
    List Nat :=
  priv.scalar :: hashTag :: msg

/-- Ideal ECDSA verification: the signature verifies exactly when it is the
signature of this message under this hash by the key pair of this public
key. -/
def ecdsaVerify (pub : PublicKey) (hashTag : Nat) (sig msg : List Nat) : Bool :=
  sig == pub.scalar :: hashTag :: msg

/-- Ideal AES-GCM encryption.  The ciphertext is a symbolic encoding that
records key, IV, associated data and plaintext; the plaintext block appears
twice so that any single-symbol modification of the ciphertext is detected on
decryption, as the GCM authentication tag guarantees (except with negligible
probability, made absolute in the ideal model). -/
def aesEncrypt (key : Nat) (iv ad pt : List Nat) : List Nat :=
  key :: iv.length :: (iv ++ ad.length :: (ad ++ pt.length :: (pt ++ pt)))

/-- Ideal AES-GCM decryption: succeeds exactly when the ciphertext is the
encryption of some plaintext under this key, IV and associated data;
otherwise authentication fails (`undefined behaviour` in the source surfaces
as an `OperationError`, i.e. `none` here). -/
def aesDecrypt (key : Nat) (iv ad ct : List Nat) : Option (List Nat) :=
  match ct.drop (3 + iv.length + ad.length) with
  | n :: body =>
    let pt := body.take n
    if ct = aesEncrypt key iv ad pt then some pt else none
  | [] => none

theorem aesEncrypt_split (key : Nat) (iv ad x : List Nat) :
    aesEncrypt key iv ad x =
      (key :: iv.length :: iv ++ ad.length :: ad ++ [x.length]) ++ (x ++ x) := by
  simp [aesEncrypt, List.append_assoc]

theorem aesEncrypt_length (key : Nat) (iv ad x : List Nat) :
    (aesEncrypt key iv ad x).length =
      4 + iv.length + ad.length + 2 * x.length := by
  simp only [aesEncrypt, List.length_cons, List.length_append]
  omega

@[simp] theorem aesDecrypt_aesEncrypt (key : Nat) (iv ad pt : List Nat) :
    aesDecrypt key iv ad (aesEncrypt key iv ad pt) = some pt := by
  unfold aesDecrypt
  have hdrop : (aesEncrypt key iv ad pt).drop (3 + iv.length + ad.length) =
      pt.length :: (pt ++ pt) := by
    have h2 : aesEncrypt key iv ad pt =
        (key :: iv.length :: iv ++ ad.length :: ad) ++
          (pt.length :: (pt ++ pt)) := by
      simp [aesEncrypt, List.append_assoc]
    rw [h2, List.drop_left'
      (by simp only [List.length_cons, List.length_append]; omega)]
  rw [hdrop]
  simp [List.take_left]

theorem aesDecrypt_eq_some {key : Nat} {iv ad ct pt : List Nat}
    (h : aesDecrypt key iv ad ct = some pt) :
    ct = aesEncrypt key iv ad pt := by
  unfold aesDecrypt at h
  rcases hdrop : ct.drop (3 + iv.length + ad.length) with _ | ⟨n, body⟩ <;>
    rw [hdrop] at h
  · exact absurd h (by simp)
  · dsimp only at h
    by_cases hct : ct = aesEncrypt key iv ad (body.take n)
    · rw [if_pos hct] at h
      obtain rfl : body.take n = pt := by simpa using h
      exact hct
    · rw [if_neg hct] at h
      exact absurd h (by simp)

theorem aesEncrypt_inj {k1 k2 : Nat} {iv1 iv2 ad1 ad2 pt1 pt2 : List Nat}
    (h : aesEncrypt k1 iv1 ad1 pt1 = aesEncrypt k2 iv2 ad2 pt2) :
    k1 = k2 ∧ iv1 = iv2 ∧ ad1 = ad2 ∧ pt1 = pt2 := by
  unfold aesEncrypt at h
  obtain ⟨hk, h⟩ := List.cons.injEq .. ▸ h
  obtain ⟨hivlen, h⟩ := List.cons.injEq .. ▸ h
  obtain ⟨hiv, h⟩ := List.append_inj h hivlen |>.imp id id
  obtain ⟨hadlen, h⟩ := List.cons.injEq .. ▸ h
  obtain ⟨had, h⟩ := List.append_inj h hadlen |>.imp id id
  obtain ⟨hptlen, h⟩ := List.cons.injEq .. ▸ h
  obtain ⟨hpt, _⟩ := List.append_inj h hptlen |>.imp id id
  exact ⟨hk, hiv, had, hpt⟩

theorem aesDecrypt_param_ne {k1 k2 : Nat} {iv1 iv2 ad1 ad2 pt : List Nat}
    (h : k2 ≠ k1 ∨ iv2 ≠ iv1 ∨ ad2 ≠ ad1) :
    aesDecrypt k2 iv2 ad2 (aesEncrypt k1 iv1 ad1 pt) = none := by
  rcases hdec : aesDecrypt k2 iv2 ad2 (aesEncrypt k1 iv1 ad1 pt) with _ | pt2
  · rfl
  · exfalso
    have heq := aesDecrypt_eq_some hdec
    obtain ⟨hk, hiv, had, _⟩ := aesEncrypt_inj heq
    rcases h with h | h | h <;> exact h (by tauto)

/-! ### Symbol-difference counting, for the single-flip tamper results -/

/-- The number of positions at which two lists (compared up to the shorter
length) differ. -/
def diffCount : List Nat → List Nat → Nat
  | a :: as, b :: bs => (if a = b then 0 else 1) + diffCount as bs
  | _, _ => 0

theorem diffCount_self (l : List Nat) : diffCount l l = 0 := by
  induction l with
  | nil => rfl
  | cons a as ih => simp [diffCount, ih]

theorem diffCount_append {a c : List Nat} (b d : List Nat)
    (h : a.length = c.length) :
    diffCount (a ++ b) (c ++ d) = diffCount a c + diffCount b d := by
  induction a generalizing c with
  | nil =>
    rw [List.length_nil] at h
    obtain rfl : c = [] := by
      cases c
      · rfl
      · exact absurd h.symm (by simp)
    simp [diffCount]
  | cons x xs ih =>
    cases c with
    | nil => exact absurd h (by simp)
    | cons y ys =>
      simp only [List.length_cons, Nat.add_right_cancel_iff] at h
      rw [List.cons_append, List.cons_append]
      show (if x = y then 0 else 1) + diffCount (xs ++ b) (ys ++ d) = _
      rw [ih h]
      show _ = (if x = y then 0 else 1) + diffCount xs ys + diffCount b d
      omega

theorem diffCount_set_le (l : List Nat) (i v : Nat) :
    diffCount (l.set i v) l ≤ 1 := by
  induction l generalizing i with
  | nil => simp [diffCount]
  | cons a as ih =>
    cases i with
    | zero =>
      simp only [List.set_cons_zero, diffCount, diffCount_self]
      split <;> omega
    | succ j =>
      rw [List.set_cons_succ]
      show (if a = a then 0 else 1) + diffCount (as.set j v) as ≤ 1
      rw [if_pos rfl]
      have := ih j
      omega

theorem eq_of_diffCount_zero {l1 l2 : List Nat} (hlen : l1.length = l2.length)
    (h : diffCount l1 l2 = 0) : l1 = l2 := by
  induction l1 generalizing l2 with
  | nil =>
    cases l2
    · rfl
    · exact absurd hlen (by simp)
  | cons a as ih =>
    cases l2 with
    | nil => exact absurd hlen (by simp)
    | cons b bs =>
      simp only [diffCount] at h
      simp only [List.length_cons, Nat.add_right_cancel_iff] at hlen
      have hab : a = b := by
        by_contra hne
        rw [if_neg hne] at h
        omega
      have : diffCount as bs = 0 := by
        rw [hab, if_pos rfl] at h
        omega
      rw [hab, ih hlen this]

/-- Ideal AEAD integrity: changing any single symbol of a ciphertext makes
decryption under the original key, IV and associated data fail. -/
theorem aesDecrypt_set_ne {key : Nat} {iv ad pt : List Nat} {i v : Nat}
    (hi : i < (aesEncrypt key iv ad pt).length)
    (hv : v ≠ (aesEncrypt key iv ad pt).getD i 0) :
    aesDecrypt key iv ad ((aesEncrypt key iv ad pt).set i v) = none := by
  rcases hdec : aesDecrypt key iv ad ((aesEncrypt key iv ad pt).set i v)
    with _ | pt2
  · rfl
  · exfalso
    have heq := aesDecrypt_eq_some hdec
    have hlen : pt2.length = pt.length := by
      have h1 := congrArg List.length heq
      rw [List.length_set, aesEncrypt_length, aesEncrypt_length] at h1
      omega
    have hdiff1 : diffCount ((aesEncrypt key iv ad pt).set i v)
        (aesEncrypt key iv ad pt) ≤ 1 := diffCount_set_le _ _ _
    have hdiff2 : diffCount (aesEncrypt key iv ad pt2)
        (aesEncrypt key iv ad pt) = 2 * diffCount pt2 pt := by
      rw [aesEncrypt_split, aesEncrypt_split]
      rw [hlen]
      rw [diffCount_append _ _ (by rfl)]
      rw [diffCount_append _ _ hlen]
      rw [diffCount_self]
      omega
    rw [heq] at hdiff1
    rw [hdiff2] at hdiff1
    have hzero : diffCount pt2 pt = 0 := by omega
    have hpt : pt2 = pt := eq_of_diffCount_zero hlen hzero
    rw [hpt] at heq
    have hset : ((aesEncrypt key iv ad pt).set i v).getD i 0 =
        (aesEncrypt key iv ad pt).getD i 0 := by rw [heq]
    rw [List.getD_eq_getElem?_getD, List.getD_eq_getElem?_getD,
      List.getElem?_set_self hi] at hset
    apply hv
    rw [List.getD_eq_getElem?_getD]
    exact hset

/-! ## Password vault (`src/lib/password.ts`) -/

/-- Modelled from the spec: a deterministic stand-in for iterated hashing of
bytes (used only to name derived values symbolically). -/
def natHash (l : List Nat) : Nat := l.foldl (fun a x => Nat.pair a x + 1) 0

/-- Modelled from the spec: PBKDF2 (SHA-256, `iterations`) derivation of an
AES-GCM key from password bytes and salt; the derived key is identified by
(password bytes, salt, iteration count). -/
def pbkdf2Key (password salt : List Nat) (iterations : Nat) : Nat :=
  Nat.pair (Nat.pair (natHash password) (natHash salt)) iterations

/-- Modelled from the spec: the SHA-256 digest, an ideal injective function of
its input bytes. -/
def sha256 (l : List Nat) : List Nat := [natHash l + 1]

/-- `hashPassword(password, salt, iterations, hasher)`: derive the AEAD key,
export its raw bytes, and hash those again (hasher tag 0 = SHA-256) into the
verification hash.  Returns (AEAD key, verification hash). -/
def hashPassword (password : JsString) (salt : List Nat) (iterations : Nat)
    (hasher : Nat) : Nat × List Nat :=
  let firstHash := pbkdf2Key (utf8Encode password) salt iterations
  let firstHashBytes := [firstHash]
  let secondHash := sha256 firstHashBytes
  (firstHash, secondHash)

/-- `Password`: salt, iteration count, hasher tag, verification hash. -/
structure Password where
  salt : List Nat
  iterations : Nat
  hasher : Nat
  hash : List Nat
  deriving DecidableEq, Repr

/-- `UnlockedPassword`: a `Password` plus the derived AEAD key. -/
structure UnlockedPassword where
  locked : Password
  key : Nat
  deriving DecidableEq, Repr

/-- `UnlockedPassword.new(password)`, with the 64-byte random salt passed
explicitly; iterations fixed at 128, hasher tag 0. -/
def UnlockedPassword.new (password : JsString) (salt : List Nat) :
    UnlockedPassword :=
  let res := hashPassword password salt 128 0
  ⟨⟨salt, 128, 0, res.2⟩, res.1⟩

/-- `UnlockedPassword.unlock(locked, guess)`: re-derive with the stored
parameters, compare the verification hash, and fail with `IncorrectPassword`
on mismatch. -/
def UnlockedPassword.unlock (locked : Password) (guess : JsString) :
    Except Err UnlockedPassword :=
  let res := hashPassword guess locked.salt locked.iterations locked.hasher
  if res.2 = locked.hash then .ok ⟨locked, res.1⟩
  else .error .incorrectPassword

/-! ## Message bodies (`src/lib/encoded.ts`: `readMessage`/`writeMessage`)

Modelled from the spec: pako's `deflateRaw`/`inflateRaw` (DEFLATE, an external
library) is modelled as an executable run-length compressor having the
properties the spec relies on: `inflateRaw (deflateRaw bytes) = bytes` and
repetitive inputs compressing smaller. -/

/-- The length of the run of `b` at the head of the list. -/
def runLen (b : Nat) : List Nat → Nat
  | x :: r => if x = b then runLen b r + 1 else 0
  | [] => 0

theorem runLen_le_length (b : Nat) (l : List Nat) : runLen b l ≤ l.length := by
  induction l with
  | nil => simp [runLen]
  | cons x r ih =>
    simp only [runLen, List.length_cons]
    split <;> omega

/-- Compression model: maximal runs (capped at 255) encoded as
(count − 1, byte) pairs.  Written with a fuel argument (the input length) so
that the definition is structurally recursive and computable by the kernel. -/
def deflateGo (fuel : Nat) (l : List Nat) : List Nat :=
  match fuel, l with
  | _, [] => []
  | 0, _ :: _ => []
  | fuel + 1, b :: r =>
    let k := min (runLen b r) 254
    k :: b :: deflateGo fuel (r.drop k)

def deflateRaw (l : List Nat) : List Nat := deflateGo l.length l

/-- Decompression model: expand each (count − 1, byte) pair. -/
def inflateRaw : List Nat → List Nat
  | k :: b :: r => List.replicate (k + 1) b ++ inflateRaw r
  | _ => []

theorem take_eq_replicate_of_le_runLen {b : Nat} {l : List Nat} {k : Nat}
    (h : k ≤ runLen b l) : l.take k = List.replicate k b := by
  induction l generalizing k with
  | nil =>
    simp only [runLen, Nat.le_zero] at h
    subst h
    rfl
  | cons x r ih =>
    cases k with
    | zero => rfl
    | succ j =>
      simp only [runLen] at h
      by_cases hx : x = b
      · rw [if_pos hx] at h
        subst hx
        simp only [List.take_succ_cons, List.replicate_succ]
        rw [ih (by omega)]
      · rw [if_neg hx] at h
        omega

theorem inflateRaw_deflateGo :
    ∀ (fuel : Nat) (l : List Nat), l.length ≤ fuel →
      inflateRaw (deflateGo fuel l) = l := by
  intro fuel
  induction fuel with
  | zero =>
    intro l hl
    cases l with
    | nil => rfl
    | cons b r => exact absurd hl (by simp)
  | succ f ih =>
    intro l hl
    cases l with
    | nil => rfl
    | cons b r =>
      show inflateRaw (min (runLen b r) 254 :: b ::
        deflateGo f (r.drop (min (runLen b r) 254))) = b :: r
      rw [inflateRaw]
      rw [ih _ (by simp only [List.length_drop, List.length_cons] at hl ⊢; omega)]
      rw [List.replicate_succ, List.cons_append]
      have htake : r.take (min (runLen b r) 254) =
          List.replicate (min (runLen b r) 254) b :=
        take_eq_replicate_of_le_runLen (by omega)
      rw [← htake, List.take_append_drop]

theorem inflateRaw_deflateRaw (l : List Nat) :
    inflateRaw (deflateRaw l) = l :=
  inflateRaw_deflateGo l.length l (Nat.le_refl _)

/-- `Message`: `{ kind: Text, content }`. -/
inductive Message where
  | text (content : JsString)
  deriving DecidableEq, Repr

/-- A message whose content is made of Unicode scalar values (what a JS string
holds once encoded and decoded). -/
def Message.WF : Message → Prop
  | .text content => ∀ c ∈ content, ValidScalar c

instance (m : Message) : Decidable m.WF := by
  unfold Message.WF
  cases m
  infer_instance

/-- `writeMessage(writer, message)`: try compression and keep whichever of the
compressed (sub-tag 1) or raw (sub-tag 0) representation is smaller. -/
def writeMessage (message : Message) : List Nat :=
  match message with
  | .text content =>
    let bytes_ := utf8Encode content
    let compressed := deflateRaw bytes_
    if compressed.length < bytes_.length then 1 :: compressed
    else 0 :: bytes_

/-- `readMessage(reader)`: sub-tag 0 = raw UTF-8, sub-tag 1 = compressed;
consumes all remaining input, so must be called last.  Unknown sub-tags are
`OutdatedError`. -/
def readMessage : ReadM Message := do
  let tag ← readUint8
  match tag with
  | 0 => do
    let bs ← bytes
    advance bs.length
    pure (.text (utf8Decode bs))
  | 1 => do
    let bs ← bytes
    advance bs.length
    pure (.text (utf8Decode (inflateRaw bs)))
  | _ => fail .outdated

theorem readMessage_run_raw (payload : List Nat) :
    readMessage (0 :: payload) = (.ok (.text (utf8Decode payload)), []) := by
  unfold readMessage
  rw [bind_run_ok (readUint8_run_cons 0 payload)]
  dsimp only
  rw [bind_run_ok (bytes_run payload)]
  rw [bind_run_ok (advance_run payload.length payload)]
  rw [List.drop_length]
  rfl

theorem readMessage_run_compressed (payload : List Nat) :
    readMessage (1 :: payload) =
      (.ok (.text (utf8Decode (inflateRaw payload))), []) := by
  unfold readMessage
  rw [bind_run_ok (readUint8_run_cons 1 payload)]
  dsimp only
  rw [bind_run_ok (bytes_run payload)]
  rw [bind_run_ok (advance_run payload.length payload)]
  rw [List.drop_length]
  rfl

theorem readMessage_run_badtag {t : Nat} (rest : List Nat) (h2 : 2 ≤ t) :
    readMessage (t :: rest) = (.error .outdated, rest) := by
  obtain ⟨t2, rfl⟩ : ∃ t2, t = t2 + 2 := ⟨t - 2, by omega⟩
  unfold readMessage
  rw [bind_run_ok (readUint8_run_cons (t2 + 2) rest)]
  rfl

theorem readMessage_run_writeMessage {m : Message} (h : m.WF) :
    readMessage (writeMessage m) = (.ok m, []) := by
  rcases m with ⟨content⟩
  unfold writeMessage
  dsimp only
  by_cases hc : (deflateRaw (utf8Encode content)).length <
      (utf8Encode content).length
  · rw [if_pos hc]
    rw [readMessage_run_compressed]
    rw [inflateRaw_deflateRaw]
    rw [utf8Decode_utf8Encode h]
  · rw [if_neg hc]
    rw [readMessage_run_raw]
    rw [utf8Decode_utf8Encode h]

/-- **C9**: the body writer emits a 1-byte sub-tag followed by the content
bytes, choosing sub-tag 1 with the compressed UTF-8 bytes exactly when the
compressed form is smaller than the raw UTF-8 form and sub-tag 0 with the raw
bytes otherwise; the body reader decodes both sub-tag 0 and sub-tag 1 back to
the original string, so read(write(m)) = m through whichever path is taken;
any other sub-tag fails with an outdated-version error. -/
theorem claim9_message_body_codec :
    (∀ s : JsString,
      writeMessage (.text s) =
        if (deflateRaw (utf8Encode s)).length < (utf8Encode s).length
        then 1 :: deflateRaw (utf8Encode s)
        else 0 :: utf8Encode s) ∧
    (∀ s : JsString, (∀ c ∈ s, ValidScalar c) →
      readMessage (0 :: utf8Encode s) = (.ok (.text s), []) ∧
      readMessage (1 :: deflateRaw (utf8Encode s)) = (.ok (.text s), []) ∧
      readMessage (writeMessage (.text s)) = (.ok (.text s), [])) ∧
    (∀ (t : Nat) (rest : List Nat), 2 ≤ t →
      readMessage (t :: rest) = (.error .outdated, rest)) := by
  refine ⟨fun s => rfl, fun s hv => ⟨?_, ?_, ?_⟩,
    fun t rest h2 => readMessage_run_badtag rest h2⟩
  · rw [readMessage_run_raw, utf8Decode_utf8Encode hv]
  · rw [readMessage_run_compressed, inflateRaw_deflateRaw,
      utf8Decode_utf8Encode hv]
  · exact readMessage_run_writeMessage hv

/-- Witness for C9: a run of 50 identical characters compresses smaller and
round-trips through the compressed path; a two-character string takes the raw
path; sub-tag 7 is outdated. -/
theorem claim9_witness :
    writeMessage (.text (List.replicate 50 97)) =
      1 :: deflateRaw (utf8Encode (List.replicate 50 97)) ∧
    readMessage (writeMessage (.text (List.replicate 50 97))) =
      (.ok (.text (List.replicate 50 97)), []) ∧
    readMessage (writeMessage (.text [104, 105])) =
      (.ok (.text [104, 105]), []) ∧
    readMessage [7, 1, 2] = (.error .outdated, [1, 2]) :=
  ⟨by
    rw [claim9_message_body_codec.1 (List.replicate 50 97)]
    rw [if_pos (by decide)],
    (claim9_message_body_codec.2.1 (List.replicate 50 97) (by decide)).2.2,
    (claim9_message_body_codec.2.1 [104, 105] (by decide)).2.2,
    claim9_message_body_codec.2.2 7 [1, 2] (by decide)⟩

/-! ## Shared contacts (`src/lib/account.ts`: `SharedContact`) -/

/-- Success inversion for the monad: a successful bind factors through a
successful first step. -/
theorem bind_ok_inv {m : ReadM α} {f : α → ReadM β} {s rest : List Nat}
    {v : β} (h : (m >>= f) s = (.ok v, rest)) :
    ∃ a s1, m s = (.ok a, s1) ∧ f a s1 = (.ok v, rest) := by
  rw [bind_run] at h
  rcases hm : m s with ⟨out, s1⟩
  rw [hm] at h
  cases out with
  | error e => exact absurd h (by simp)
  | ok a => exact ⟨a, s1, rfl, h⟩

/-- A successful `StoredPublicKey.readFrom` consumed exactly the serialized
bytes it returns. -/
theorem StoredPublicKey_readFrom_ok_inv {alg : KeyAlgName} {s s2 : List Nat}
    {k : StoredPublicKey}
    (h : StoredPublicKey.readFrom alg s = (.ok k, s2)) :
    s = k.serialized ++ s2 := by
  unfold StoredPublicKey.readFrom at h
  obtain ⟨bs, s1, hb, h⟩ := bind_ok_inv h
  rw [bytes_run] at hb
  injection hb with hb1 hb2
  injection hb1 with hb1
  subst hb1
  subst hb2
  rcases hc : tagCurve (List.headD s 0 / 4) with _ | c <;> rw [hc] at h
  · exact absurd h (by simp [fail])
  · dsimp only at h
    obtain ⟨u, s1, hreq, h⟩ := bind_ok_inv h
    have hlen : keyLen c + 1 ≤ s.length := by
      by_contra hlt
      rw [requireBytes_run_lt (by omega)] at hreq
      exact absurd hreq (by simp)
    rw [requireBytes_run_ge hlen] at hreq
    injection hreq with hreq1 hreq2
    subst hreq2
    obtain ⟨bs2, s3, hb2, h⟩ := bind_ok_inv h
    rw [bytes_run] at hb2
    injection hb2 with hb21 hb22
    injection hb21 with hb21
    subst hb21
    subst hb22
    obtain ⟨u2, s4, hadv, h⟩ := bind_ok_inv h
    rw [advance_run] at hadv
    injection hadv with hadv1 hadv2
    subst hadv2
    rcases him : importRawKey alg c (maskHead (List.take (keyLen c + 1) s))
      with _ | inner <;> rw [him] at h
    · exact absurd h (by simp [fail])
    · dsimp only at h
      rw [pure_run] at h
      injection h with h1 h2
      injection h1 with h1
      rw [← h1, ← h2]
      show s = (s.take (keyLen c + 1)) ++ s.drop (keyLen c + 1)
      rw [List.take_append_drop]

/-- `SharedContact`: dsa key, dh key, signature over the dh-key bytes, and the
signature-hash-algorithm tag. -/
structure SharedContact where
  dsaPublicKey : StoredPublicKey
  dhPublicKey : StoredPublicKey
  signature : List Nat
  signatureHash : Nat
  deriving DecidableEq, Repr

/-- `SharedContact.writeTo(writer)`: version tag, both keys, length-prefixed
signature, hash tag. -/
def SharedContact.writeTo (sc : SharedContact) : List Nat :=
  writeUint8 0 ++ sc.dsaPublicKey.writeTo ++ sc.dhPublicKey.writeTo ++
    writeLenBuffer .w1 sc.signature ++ writeUint8 sc.signatureHash

/-- The `signatureHash` switch (0 = SHA-256, 1 = SHA-384, 2 = SHA-512,
default → `OutdatedError`); the tag itself identifies the hash. -/
def signatureHashName (t : Nat) : Option Nat :=
  if t < 3 then some t else none

/-- `SharedContact.readFrom(reader)`: parse the fields, then verify the
embedded signature over the exact dh-key bytes as read; an unrecognized hash
tag is an `OutdatedError` and a failed verification an `InvalidFormatError` —
an unverified `SharedContact` is never returned. -/
def SharedContact.readFrom : ReadM SharedContact := do
  let tag ← readUint8
  match tag with
  | 0 => do
    let dsaPublicKey ← StoredPublicKey.readFrom .ecdsa
    let toVerifyStart ← bytes
    let dhPublicKey ← StoredPublicKey.readFrom .ecdh
    let bsAfter ← bytes
    let toVerify := toVerifyStart.take (toVerifyStart.length - bsAfter.length)
    let signature ← readLenBuffer .w1
    let signatureHash ← readUint8
    let self : SharedContact :=
      ⟨dsaPublicKey, dhPublicKey, signature, signatureHash⟩
    match signatureHashName self.signatureHash with
    | none => fail .outdated
    | some hashTag =>
      if ecdsaVerify self.dsaPublicKey.inner hashTag self.signature toVerify
      then pure self
      else fail .invalidFormat
  | _ => fail .outdated

/-- A well-formed shared contact: canonical keys of the right algorithms, a
length-prefixable signature, a recognized hash tag, and a signature that
verifies over the dh-key bytes. -/
def SharedContact.WF (sc : SharedContact) : Prop :=
  sc.dsaPublicKey.WF .ecdsa ∧ sc.dhPublicKey.WF .ecdh ∧
    sc.signature.length < 256 ∧ sc.signatureHash < 3 ∧
    ecdsaVerify sc.dsaPublicKey.inner sc.signatureHash sc.signature
      sc.dhPublicKey.serialized = true

instance (sc : SharedContact) : Decidable sc.WF := by
  unfold SharedContact.WF
  infer_instance

theorem take_sub_append (A B : List Nat) :
    (A ++ B).take ((A ++ B).length - B.length) = A := by
  have h : (A ++ B).length - B.length = A.length := by simp
  rw [h, List.take_left]

/-- The outcome of `SharedContact.readFrom` on a serialized contact whose two
keys parse back: the hash-tag switch and the signature check decide between
the contact, `OutdatedError`, and `InvalidFormatError`. -/
theorem SharedContact_readFrom_run {dsa dh : StoredPublicKey}
    {sig : List Nat} {sh : Nat} (hdsa : dsa.WF .ecdsa) (hdh : dh.WF .ecdh)
    (hsiglen : sig.length < 256) (hsh : sh < 256) (rest : List Nat) :
    SharedContact.readFrom
        (SharedContact.writeTo ⟨dsa, dh, sig, sh⟩ ++ rest) =
      ((match signatureHashName sh with
        | none => .error .outdated
        | some hashTag =>
          if ecdsaVerify dsa.inner hashTag sig dh.serialized
          then .ok (⟨dsa, dh, sig, sh⟩ : SharedContact)
          else .error .invalidFormat), rest) := by
  unfold SharedContact.readFrom SharedContact.writeTo StoredPublicKey.writeTo
  have hsh2 : sh % 256 = sh := Nat.mod_eq_of_lt hsh
  simp only [writeUint8, hsh2, List.append_assoc, List.cons_append,
    List.nil_append]
  rw [bind_run_ok (readUint8_run_cons 0 _)]
  dsimp only
  rw [bind_run_ok (parsesTo_StoredPublicKey_readFrom hdsa _)]
  rw [bind_run_ok (bytes_run _)]
  rw [bind_run_ok (parsesTo_StoredPublicKey_readFrom hdh _)]
  rw [bind_run_ok (bytes_run _)]
  rw [bind_run_ok ((parsesTo_readLenBuffer
    (show sig.length < Width.range .w1 from hsiglen)) _)]
  rw [bind_run_ok (readUint8_run_cons sh rest)]
  rw [take_sub_append]
  rcases hname : signatureHashName sh with _ | hashTag
  · rfl
  · dsimp only
    by_cases hv : ecdsaVerify dsa.inner hashTag sig dh.serialized
    · rw [if_pos hv, if_pos hv]
      rfl
    · rw [if_neg hv, if_neg hv]
      rfl

theorem parsesTo_SharedContact_readFrom {sc : SharedContact} (h : sc.WF) :
    ParsesTo SharedContact.readFrom sc.writeTo sc := by
  obtain ⟨hdsa, hdh, hsiglen, hhash, hver⟩ := h
  intro rest
  rcases sc with ⟨dsa, dh, sig, sh⟩
  simp only at hdsa hdh hsiglen hhash hver
  rw [SharedContact_readFrom_run hdsa hdh hsiglen (by omega) rest]
  have hname : signatureHashName sh = some sh := by
    simp [signatureHashName, hhash]
  rw [hname]
  dsimp only
  rw [if_pos hver]

/-- Any successful `SharedContact.readFrom` returns a contact whose hash tag
is recognized and whose signature verifies over the exact dh-key bytes: an
unverified contact is never constructed. -/
theorem SharedContact_readFrom_ok_inv {s rest : List Nat} {sc : SharedContact}
    (h : SharedContact.readFrom s = (.ok sc, rest)) :
    sc.signatureHash < 3 ∧
      ecdsaVerify sc.dsaPublicKey.inner sc.signatureHash sc.signature
        sc.dhPublicKey.serialized = true := by
  unfold SharedContact.readFrom at h
  obtain ⟨tag, s1, htag, h⟩ := bind_ok_inv h
  cases tag with
  | succ t => exact absurd h (by simp [fail])
  | zero =>
    dsimp only at h
    obtain ⟨dsa, s2, hdsa, h⟩ := bind_ok_inv h
    obtain ⟨tvs, s2b, htvs, h⟩ := bind_ok_inv h
    rw [bytes_run] at htvs
    injection htvs with htvs1 htvs2
    injection htvs1 with htvs1
    subst htvs1
    subst htvs2
    obtain ⟨dh, s3, hdh, h⟩ := bind_ok_inv h
    obtain ⟨bsa, s3b, hbsa, h⟩ := bind_ok_inv h
    rw [bytes_run] at hbsa
    injection hbsa with hbsa1 hbsa2
    injection hbsa1 with hbsa1
    subst hbsa1
    subst hbsa2
    obtain ⟨sig, s4, hsig, h⟩ := bind_ok_inv h
    obtain ⟨sh, s5, hsh, h⟩ := bind_ok_inv h
    have htv : s2 = dh.serialized ++ s3 := StoredPublicKey_readFrom_ok_inv hdh
    rw [htv, take_sub_append] at h
    rcases hname : signatureHashName sh with _ | hashTag <;> rw [hname] at h
    · exact absurd h (by simp [fail])
    · dsimp only at h
      have hsh3 : sh < 3 ∧ hashTag = sh := by
        by_cases h3 : sh < 3
        · refine ⟨h3, ?_⟩
          unfold signatureHashName at hname
          rw [if_pos h3] at hname
          injection hname with hname
          exact hname.symm
        · unfold signatureHashName at hname
          rw [if_neg h3] at hname
          exact absurd hname (by simp)
      obtain ⟨h3, hEq⟩ := hsh3
      rw [hEq] at h
      by_cases hv : ecdsaVerify dsa.inner sh sig dh.serialized
      · rw [if_pos hv] at h
        rw [pure_run] at h
        injection h with h1 h2
        injection h1 with h1
        rw [← h1]
        exact ⟨h3, hv⟩
      · rw [if_neg hv] at h
        exact absurd h (by simp [fail])

/-- **C3**: `SharedContact.readFrom` verifies the embedded signature during
parsing: every successfully parsed contact satisfies the invariant that its
signature verifies over the exact serialized dh-key bytes under its stated
hash algorithm and its dsa key (an unverified contact is never returned);
failed verification is an `InvalidFormatError`, and a hash-algorithm tag
other than 0, 1, 2 is an `OutdatedError`. -/
theorem claim3_sharedContact_parse_verifies :
    (∀ (s rest : List Nat) (sc : SharedContact),
      SharedContact.readFrom s = (.ok sc, rest) →
      sc.signatureHash < 3 ∧
        ecdsaVerify sc.dsaPublicKey.inner sc.signatureHash sc.signature
          sc.dhPublicKey.serialized = true) ∧
    (∀ (dsa dh : StoredPublicKey) (sig : List Nat) (sh : Nat)
      (rest : List Nat), dsa.WF .ecdsa → dh.WF .ecdh → sig.length < 256 →
      sh < 3 → ecdsaVerify dsa.inner sh sig dh.serialized = false →
      SharedContact.readFrom
          (SharedContact.writeTo ⟨dsa, dh, sig, sh⟩ ++ rest) =
        (.error .invalidFormat, rest)) ∧
    (∀ (dsa dh : StoredPublicKey) (sig : List Nat) (sh : Nat)
      (rest : List Nat), dsa.WF .ecdsa → dh.WF .ecdh → sig.length < 256 →
      3 ≤ sh → sh < 256 →
      SharedContact.readFrom
          (SharedContact.writeTo ⟨dsa, dh, sig, sh⟩ ++ rest) =
        (.error .outdated, rest)) := by
  refine ⟨fun s rest sc h => SharedContact_readFrom_ok_inv h,
    fun dsa dh sig sh rest hdsa hdh hsiglen hsh3 hver => ?_,
    fun dsa dh sig sh rest hdsa hdh hsiglen hsh3 hsh256 => ?_⟩
  · rw [SharedContact_readFrom_run hdsa hdh hsiglen (by omega) rest]
    have hname : signatureHashName sh = some sh := by
      simp [signatureHashName, hsh3]
    rw [hname]
    dsimp only
    rw [if_neg (by rw [hver]; exact Bool.false_ne_true)]
  · rw [SharedContact_readFrom_run hdsa hdh hsiglen hsh256 rest]
    have hname : signatureHashName sh = none := by
      simp [signatureHashName]
      omega
    rw [hname]

/-- A sample canonical P-256 ECDSA public key (scalar 5). -/
def sampleDsaKey : StoredPublicKey := StoredPublicKey.new ⟨.ecdsa, .p256, 5⟩

/-- A sample canonical P-256 ECDH public key (scalar 7). -/
def sampleDhKey : StoredPublicKey := StoredPublicKey.new ⟨.ecdh, .p256, 7⟩

/-- Witness for C3 at concrete inputs: a contact card whose signature does not
verify parses to a format error, and one with hash tag 5 to an
outdated-version error. -/
theorem claim3_witness :
    SharedContact.readFrom
        (SharedContact.writeTo ⟨sampleDsaKey, sampleDhKey, [9, 9], 0⟩ ++ []) =
      (.error .invalidFormat, []) ∧
    SharedContact.readFrom
        (SharedContact.writeTo ⟨sampleDsaKey, sampleDhKey, [9, 9], 5⟩ ++ []) =
      (.error .outdated, []) :=
  ⟨claim3_sharedContact_parse_verifies.2.1 sampleDsaKey sampleDhKey [9, 9] 0 []
      (by decide) (by decide) (by decide) (by decide) (by decide),
    claim3_sharedContact_parse_verifies.2.2 sampleDsaKey sampleDhKey [9, 9] 5 []
      (by decide) (by decide) (by decide) (by decide) (by decide)⟩

/-! ## Account model (`src/lib/account.ts`) -/

/-- `AccountPublic`: display name and dsa public key. -/
structure AccountPublic where
  name : JsString
  dsaPublicKey : StoredPublicKey
  deriving DecidableEq, Repr

/-- `writeAccountPublic(writer, account)`: version tag, 1-byte-length-prefixed
name, dsa key. -/
def writeAccountPublic (account : AccountPublic) : List Nat :=
  writeUint8 0 ++ writeLenString .w1 account.name ++
    account.dsaPublicKey.writeTo

/-- `readAccountPublic(reader)`. -/
def readAccountPublic : ReadM AccountPublic := do
  let tag ← readUint8
  match tag with
  | 0 => do
    let name ← readLenString .w1
    let dsaPublicKey ← StoredPublicKey.readFrom .ecdsa
    pure ⟨name, dsaPublicKey⟩
  | _ => fail .outdated

/-- `Contact`: a shared contact plus nickname and note. -/
structure Contact where
  shared : SharedContact
  nickname : JsString
  note : JsString
  deriving DecidableEq, Repr

/-- `writeContact(writer, contact)`. -/
def writeContact (contact : Contact) : List Nat :=
  writeUint8 0 ++ contact.shared.writeTo ++
    writeLenString .w1 contact.nickname ++ writeLenString .w4 contact.note

/-- `readContact(reader)`. -/
def readContact : ReadM Contact := do
  let tag ← readUint8
  match tag with
  | 0 => do
    let shared ← SharedContact.readFrom
    let nickname ← readLenString .w1
    let note ← readLenString .w4
    pure ⟨shared, nickname, note⟩
  | _ => fail .outdated

/-- `UnlockedAccount`. -/
structure UnlockedAccount where
  password : UnlockedPassword
  publicData : AccountPublic
  dsaPrivateKey : StoredPrivateKey
  dhKeyPair : StoredKeyPair
  contacts : List Contact
  deriving DecidableEq, Repr

/-- `LockedAccount`. -/
structure LockedAccount where
  password : Password
  iv : List Nat
  encryptedData : List Nat
  publicDataBuffer : List Nat
  publicData : AccountPublic
  deriving DecidableEq, Repr

/-- The private-bundle serialization inside `LockedAccount.lock`: version tag,
dsa private key, dh key pair, contact count, contacts. -/
def writePrivateData (unlocked : UnlockedAccount) : List Nat :=
  writeUint8 0 ++ unlocked.dsaPrivateKey.writeTo ++
    writeKeyPair unlocked.dhKeyPair ++
    writeUint32 unlocked.contacts.length ++
    (unlocked.contacts.map writeContact).flatten

/-- `LockedAccount.lock(unlocked)`, with the random 12-byte IV passed
explicitly: serialize the public data and the private bundle, AEAD-encrypt
the bundle under the account key with the public-data bytes as associated
data. -/
def LockedAccount.lock (unlocked : UnlockedAccount) (iv : List Nat) :
    LockedAccount :=
  let password := unlocked.password
  let publicData := unlocked.publicData
  let publicDataBuffer := writeAccountPublic publicData
  let privateDataBuffer := writePrivateData unlocked
  let encryptedData :=
    aesEncrypt password.key iv publicDataBuffer privateDataBuffer
  ⟨password.locked, iv, encryptedData, publicDataBuffer, publicData⟩

/-- The `for` loop reading `contactsLen` contacts inside `unlock`. -/
def readContacts : Nat → ReadM (List Contact)
  | 0 => pure []
  | n + 1 => do
    let c ← readContact
    let cs ← readContacts n
    pure (c :: cs)

/-- The private-bundle parser inside `unlock`: version switch (unknown tag →
`OutdatedError`), dsa private key re-derived against the public data's dsa
key, dh key pair, contact list. -/
def readPrivateData (la : LockedAccount)
    (unlockedPassword : UnlockedPassword) : ReadM UnlockedAccount := do
  let tag ← readUint8
  match tag with
  | 0 => do
    let dsaPrivateKey ←
      StoredPrivateKey.readFrom la.publicData.dsaPublicKey.inner
    let dhKeyPair ← readKeyPair .ecdh
    let contactsLen ← readUint32
    let contacts ← readContacts contactsLen
    pure ⟨unlockedPassword, la.publicData, dsaPrivateKey, dhKeyPair, contacts⟩
  | _ => fail .outdated

/-- `LockedAccount.unlock(passwordGuess)`: verify the password (propagating
`IncorrectPassword`); AEAD-decrypt the ciphertext under the derived key, the
stored IV and the stored `publicDataBuffer` as associated data, reporting an
authentication failure (`OperationError`) as `TamperedError`; then parse the
private bundle. -/
def LockedAccount.unlock (la : LockedAccount) (passwordGuess : JsString) :
    Except Err UnlockedAccount := do
  let unlockedPassword ← UnlockedPassword.unlock la.password passwordGuess
  let privateDataBuffer ←
    match aesDecrypt unlockedPassword.key la.iv la.publicDataBuffer
        la.encryptedData with
    | some buffer => Except.ok buffer
    | none => Except.error Err.tampered
  (readPrivateData la unlockedPassword privateDataBuffer).1

/-- A well-formed contact: well-formed shared part and serializable
nickname/note. -/
def Contact.WF (c : Contact) : Prop :=
  c.shared.WF ∧ (∀ x ∈ c.nickname, ValidScalar x) ∧
    (utf8Encode c.nickname).length < 256 ∧
    (∀ x ∈ c.note, ValidScalar x) ∧
    (utf8Encode c.note).length < 4294967296

instance (c : Contact) : Decidable c.WF := by
  unfold Contact.WF
  infer_instance

/-- Well-formed public account data. -/
def AccountPublic.WF (a : AccountPublic) : Prop :=
  (∀ x ∈ a.name, ValidScalar x) ∧ (utf8Encode a.name).length < 256 ∧
    a.dsaPublicKey.WF .ecdsa

instance (a : AccountPublic) : Decidable a.WF := by
  unfold AccountPublic.WF
  infer_instance

/-- A well-formed unlocked account: canonical keys of the right algorithms
and a serializable contact list. -/
def UnlockedAccount.WF (u : UnlockedAccount) : Prop :=
  u.publicData.WF ∧ u.dsaPrivateKey.WF u.publicData.dsaPublicKey.inner ∧
    u.dhKeyPair.WF .ecdh ∧ u.contacts.length < 4294967296 ∧
    ∀ c ∈ u.contacts, c.WF

instance (u : UnlockedAccount) : Decidable u.WF := by
  unfold UnlockedAccount.WF
  infer_instance

/-- The password record of an unlocked account is the one derived from a
given password string (as `UnlockedPassword.new` and a successful
`UnlockedPassword.unlock` produce). -/
def UnlockedPassword.ConsistentWith (up : UnlockedPassword)
    (pw : JsString) : Prop :=
  hashPassword pw up.locked.salt up.locked.iterations up.locked.hasher =
    (up.key, up.locked.hash)

instance (up : UnlockedPassword) (pw : JsString) :
    Decidable (up.ConsistentWith pw) := by
  unfold UnlockedPassword.ConsistentWith
  infer_instance

theorem parsesTo_readContact {c : Contact} (h : c.WF) :
    ParsesTo readContact (writeContact c) c := by
  obtain ⟨hsc, hnick, hnicklen, hnote, hnotelen⟩ := h
  unfold readContact writeContact
  have h0 : writeUint8 0 ++ c.shared.writeTo ++
      writeLenString .w1 c.nickname ++ writeLenString .w4 c.note =
      [0] ++ (c.shared.writeTo ++ (writeLenString .w1 c.nickname ++
        writeLenString .w4 c.note)) := by
    simp [writeUint8, List.append_assoc]
  rw [h0]
  intro rest
  simp only [List.cons_append, List.nil_append, List.append_assoc]
  rw [bind_run_ok (readUint8_run_cons 0 _)]
  dsimp only
  rw [bind_run_ok (parsesTo_SharedContact_readFrom hsc _)]
  rw [bind_run_ok (parsesTo_readLenString (w := .w1) hnick hnicklen _)]
  rw [bind_run_ok (parsesTo_readLenString (w := .w4) hnote hnotelen _)]
  rfl

theorem parsesTo_readContacts {cs : List Contact} (h : ∀ c ∈ cs, c.WF) :
    ParsesTo (readContacts cs.length) (cs.map writeContact).flatten cs := by
  induction cs with
  | nil => exact ParsesTo.pure []
  | cons c cs ih =>
    show ParsesTo (readContacts (cs.length + 1)) _ _
    unfold readContacts
    simp only [List.map_cons, List.flatten_cons]
    apply (parsesTo_readContact (h c (List.mem_cons_self c cs))).bind
    have ihh := ih (fun x hx => h x (List.mem_cons_of_mem c hx))
    have := ihh.bind (f := fun xs => pure (c :: xs)) (q := [])
      (ParsesTo.pure (c :: cs))
    rw [List.append_nil] at this
    exact this

theorem parsesTo_readPrivateData {acc : UnlockedAccount}
    (la : LockedAccount) (up : UnlockedPassword) (hwf : acc.WF)
    (hpub : la.publicData = acc.publicData) :
    ParsesTo (readPrivateData la up) (writePrivateData acc)
      ⟨up, acc.publicData, acc.dsaPrivateKey, acc.dhKeyPair, acc.contacts⟩ := by
  obtain ⟨hap, hdsapriv, hdh, hclen, hcs⟩ := hwf
  unfold readPrivateData writePrivateData
  have h0 : writeUint8 0 ++ acc.dsaPrivateKey.writeTo ++
      writeKeyPair acc.dhKeyPair ++ writeUint32 acc.contacts.length ++
      (acc.contacts.map writeContact).flatten =
      [0] ++ (acc.dsaPrivateKey.writeTo ++ (writeKeyPair acc.dhKeyPair ++
        (writeUint32 acc.contacts.length ++
          (acc.contacts.map writeContact).flatten))) := by
    simp [writeUint8, List.append_assoc]
  rw [h0]
  intro rest
  simp only [List.cons_append, List.nil_append, List.append_assoc,
    StoredPrivateKey.writeTo]
  rw [bind_run_ok (readUint8_run_cons 0 _)]
  dsimp only
  rw [hpub]
  rw [bind_run_ok (parsesTo_StoredPrivateKey_readFrom hdsapriv _)]
  rw [bind_run_ok (parsesTo_readKeyPair hdh _)]
  rw [bind_run_ok (parsesTo_readUint32 hclen _)]
  rw [bind_run_ok (parsesTo_readContacts hcs _)]
  rfl

theorem set_ne_of_ne {l : List Nat} {i v : Nat} (hi : i < l.length)
    (hv : v ≠ l.getD i 0) : l.set i v ≠ l := by
  intro heq
  apply hv
  have h2 := congrArg (fun x => List.getD x i 0) heq
  dsimp only at h2
  rw [List.getD_eq_getElem?_getD, List.getElem?_set_self hi] at h2
  rw [← h2]
  rfl

/-- A successful password verification unlocks to the stored record plus the
derived key. -/
theorem UnlockedPassword_unlock_ok {locked : Password} {guess : JsString}
    (h : (hashPassword guess locked.salt locked.iterations locked.hasher).2 =
      locked.hash) :
    UnlockedPassword.unlock locked guess =
      .ok ⟨locked,
        (hashPassword guess locked.salt locked.iterations locked.hasher).1⟩ := by
  unfold UnlockedPassword.unlock
  rw [if_pos h]

theorem UnlockedPassword_unlock_err {locked : Password} {guess : JsString}
    (h : (hashPassword guess locked.salt locked.iterations locked.hasher).2 ≠
      locked.hash) :
    UnlockedPassword.unlock locked guess = .error .incorrectPassword := by
  unfold UnlockedPassword.unlock
  rw [if_neg h]

theorem unlock_incorrectPassword {la : LockedAccount} {guess : JsString}
    (h : (hashPassword guess la.password.salt la.password.iterations
      la.password.hasher).2 ≠ la.password.hash) :
    la.unlock guess = .error .incorrectPassword := by
  unfold LockedAccount.unlock
  rw [UnlockedPassword_unlock_err h]
  rfl

/-- The outcome of `unlock` as a two-stage case split: password verification,
then AEAD decryption, then bundle parsing. -/
theorem unlock_run (la : LockedAccount) (guess : JsString) :
    la.unlock guess =
      match UnlockedPassword.unlock la.password guess with
      | .error e => .error e
      | .ok up =>
        match aesDecrypt up.key la.iv la.publicDataBuffer la.encryptedData with
        | none => .error .tampered
        | some buffer => (readPrivateData la up buffer).1 := by
  unfold LockedAccount.unlock
  cases hu : UnlockedPassword.unlock la.password guess with
  | error e => rfl
  | ok up =>
    show (match aesDecrypt up.key la.iv la.publicDataBuffer
        la.encryptedData with
      | some buffer => (readPrivateData la up buffer).1
      | none => Except.error Err.tampered) =
      (match aesDecrypt up.key la.iv la.publicDataBuffer
        la.encryptedData with
      | none => Except.error Err.tampered
      | some buffer => (readPrivateData la up buffer).1)
    cases hd : aesDecrypt up.key la.iv la.publicDataBuffer
        la.encryptedData with
    | none => rfl
    | some buffer => rfl

theorem unlock_tampered_of_decrypt_none {la : LockedAccount}
    {guess : JsString}
    (hpw : (hashPassword guess la.password.salt la.password.iterations
      la.password.hasher).2 = la.password.hash)
    (hdec : aesDecrypt (hashPassword guess la.password.salt
        la.password.iterations la.password.hasher).1
      la.iv la.publicDataBuffer la.encryptedData = none) :
    la.unlock guess = .error .tampered := by
  rw [unlock_run]
  rw [UnlockedPassword_unlock_ok hpw]
  dsimp only
  rw [hdec]

/-- **C2**: unlock first re-derives and compares the verification hash — a
guess whose derived hash differs fails with an incorrect-password error; when
the password verifies but AEAD decryption (under the derived key, the stored
IV and the stored publicDataBuffer as associated data) fails authentication —
in particular after flipping any single byte of the ciphertext, IV, or
public-data buffer of a locked account — unlock fails with a tampered-data
error, an error distinct from incorrect-password, never silently corrupted
data. -/
theorem claim2_unlock_error_classification :
    (∀ (la : LockedAccount) (guess : JsString),
      (hashPassword guess la.password.salt la.password.iterations
        la.password.hasher).2 ≠ la.password.hash →
      la.unlock guess = .error .incorrectPassword) ∧
    (∀ (la : LockedAccount) (guess : JsString),
      (hashPassword guess la.password.salt la.password.iterations
        la.password.hasher).2 = la.password.hash →
      aesDecrypt (hashPassword guess la.password.salt la.password.iterations
          la.password.hasher).1 la.iv la.publicDataBuffer la.encryptedData =
        none →
      la.unlock guess = .error .tampered) ∧
    Err.tampered ≠ Err.incorrectPassword ∧
    (∀ (acc : UnlockedAccount) (iv : List Nat) (pw : JsString) (i v : Nat),
      acc.password.ConsistentWith pw →
      i < (LockedAccount.lock acc iv).encryptedData.length →
      v ≠ (LockedAccount.lock acc iv).encryptedData.getD i 0 →
      LockedAccount.unlock
        { LockedAccount.lock acc iv with
          encryptedData := (LockedAccount.lock acc iv).encryptedData.set i v }
        pw = .error .tampered) ∧
    (∀ (acc : UnlockedAccount) (iv : List Nat) (pw : JsString) (i v : Nat),
      acc.password.ConsistentWith pw →
      i < iv.length → v ≠ iv.getD i 0 →
      LockedAccount.unlock
        { LockedAccount.lock acc iv with iv := iv.set i v } pw =
        .error .tampered) ∧
    (∀ (acc : UnlockedAccount) (iv : List Nat) (pw : JsString) (i v : Nat),
      acc.password.ConsistentWith pw →
      i < (LockedAccount.lock acc iv).publicDataBuffer.length →
      v ≠ (LockedAccount.lock acc iv).publicDataBuffer.getD i 0 →
      LockedAccount.unlock
        { LockedAccount.lock acc iv with
          publicDataBuffer :=
            (LockedAccount.lock acc iv).publicDataBuffer.set i v }
        pw = .error .tampered) := by
  refine ⟨fun la guess h => unlock_incorrectPassword h,
    fun la guess hpw hdec => unlock_tampered_of_decrypt_none hpw hdec,
    by decide, ?_, ?_, ?_⟩
  · intro acc iv pw i v hcons hi hv
    apply unlock_tampered_of_decrypt_none
    · rw [UnlockedPassword.ConsistentWith] at hcons
      show (hashPassword pw acc.password.locked.salt
        acc.password.locked.iterations acc.password.locked.hasher).2 =
        acc.password.locked.hash
      rw [hcons]
    · rw [UnlockedPassword.ConsistentWith] at hcons
      show aesDecrypt (hashPassword pw acc.password.locked.salt
          acc.password.locked.iterations acc.password.locked.hasher).1 iv
        (writeAccountPublic acc.publicData)
        ((aesEncrypt acc.password.key iv (writeAccountPublic acc.publicData)
          (writePrivateData acc)).set i v) = none
      rw [hcons]
      exact aesDecrypt_set_ne hi hv
  · intro acc iv pw i v hcons hi hv
    apply unlock_tampered_of_decrypt_none
    · rw [UnlockedPassword.ConsistentWith] at hcons
      show (hashPassword pw acc.password.locked.salt
        acc.password.locked.iterations acc.password.locked.hasher).2 =
        acc.password.locked.hash
      rw [hcons]
    · rw [UnlockedPassword.ConsistentWith] at hcons
      show aesDecrypt (hashPassword pw acc.password.locked.salt
          acc.password.locked.iterations acc.password.locked.hasher).1
        (iv.set i v) (writeAccountPublic acc.publicData)
        (aesEncrypt acc.password.key iv (writeAccountPublic acc.publicData)
          (writePrivateData acc)) = none
      rw [hcons]
      exact aesDecrypt_param_ne (Or.inr (Or.inl (set_ne_of_ne hi hv)))
  · intro acc iv pw i v hcons hi hv
    apply unlock_tampered_of_decrypt_none
    · rw [UnlockedPassword.ConsistentWith] at hcons
      show (hashPassword pw acc.password.locked.salt
        acc.password.locked.iterations acc.password.locked.hasher).2 =
        acc.password.locked.hash
      rw [hcons]
    · rw [UnlockedPassword.ConsistentWith] at hcons
      show aesDecrypt (hashPassword pw acc.password.locked.salt
          acc.password.locked.iterations acc.password.locked.hasher).1 iv
        ((writeAccountPublic acc.publicData).set i v)
        (aesEncrypt acc.password.key iv (writeAccountPublic acc.publicData)
          (writePrivateData acc)) = none
      rw [hcons]
      exact aesDecrypt_param_ne (Or.inr (Or.inr (set_ne_of_ne hi hv)))

/-- **C4**: locking an unlocked account and unlocking the result with the
original password string reconstructs the account exactly — identical public
data, key material, and contact list in order (our model proves full
structural equality, which implies the claim's componentwise equality). -/
theorem claim4_lock_unlock_roundtrip :
    ∀ (acc : UnlockedAccount) (iv : List Nat) (pw : JsString), acc.WF →
      acc.password.ConsistentWith pw →
      (LockedAccount.lock acc iv).unlock pw = .ok acc := by
  intro acc iv pw hwf hcons
  rw [UnlockedPassword.ConsistentWith] at hcons
  rw [unlock_run]
  have hlap : (LockedAccount.lock acc iv).password = acc.password.locked := rfl
  rw [hlap]
  have hup : UnlockedPassword.unlock acc.password.locked pw =
      .ok ⟨acc.password.locked, acc.password.key⟩ := by
    rw [UnlockedPassword_unlock_ok (by rw [hcons])]
    rw [hcons]
  rw [hup]
  dsimp only
  have hliv : (LockedAccount.lock acc iv).iv = iv := rfl
  have hlpdb : (LockedAccount.lock acc iv).publicDataBuffer =
      writeAccountPublic acc.publicData := rfl
  have hled : (LockedAccount.lock acc iv).encryptedData =
      aesEncrypt acc.password.key iv (writeAccountPublic acc.publicData)
        (writePrivateData acc) := rfl
  rw [hliv, hlpdb, hled]
  rw [aesDecrypt_aesEncrypt]
  dsimp only
  rw [(parsesTo_readPrivateData (LockedAccount.lock acc iv)
    ⟨acc.password.locked, acc.password.key⟩ hwf rfl).run_exact]

/-- A sample unlocked password: password "p" (code point 112), salt [1]. -/
def samplePassword : UnlockedPassword := UnlockedPassword.new [112] [1]

/-- The sample account's dsa private key (scalar 5, partner of
`sampleDsaKey`). -/
def sampleDsaPriv : StoredPrivateKey := StoredPrivateKey.new ⟨.ecdsa, .p256, 5⟩

/-- The sample account's dh private key (scalar 7, partner of
`sampleDhKey`). -/
def sampleDhPriv : StoredPrivateKey := StoredPrivateKey.new ⟨.ecdh, .p256, 7⟩

/-- A sample well-formed contact (key pair scalars 11/13, valid card
signature). -/
def sampleContact : Contact :=
  ⟨⟨StoredPublicKey.new ⟨.ecdsa, .p256, 11⟩,
      StoredPublicKey.new ⟨.ecdh, .p256, 13⟩,
      ecdsaSignBytes ⟨.ecdsa, .p256, 11⟩ 0
        (StoredPublicKey.new ⟨.ecdh, .p256, 13⟩).serialized, 0⟩,
    [66], [67]⟩

/-- A sample well-formed unlocked account with one contact. -/
def sampleAccount : UnlockedAccount :=
  ⟨samplePassword, ⟨[65], sampleDsaKey⟩, sampleDsaPriv,
    ⟨sampleDhKey, sampleDhPriv⟩, [sampleContact]⟩

/-- Witness for C4: the sample account locks and unlocks back to itself with
its original password. -/
theorem claim4_witness :
    (LockedAccount.lock sampleAccount [3, 1, 4]).unlock [112] =
      .ok sampleAccount :=
  claim4_lock_unlock_roundtrip sampleAccount [3, 1, 4] [112]
    (by decide) (by decide)

/-- Witness for C2 at concrete inputs: a wrong guess is an incorrect-password
error, and flipping one byte of the ciphertext, the IV, or the public-data
buffer each yields a tampered-data error under the correct password. -/
theorem claim2_witness :
    (LockedAccount.lock sampleAccount [2, 2]).unlock [113] =
      .error .incorrectPassword ∧
    LockedAccount.unlock
      { LockedAccount.lock sampleAccount [2, 2] with
        encryptedData :=
          (LockedAccount.lock sampleAccount [2, 2]).encryptedData.set 0 99 }
      [112] = .error .tampered ∧
    LockedAccount.unlock
      { LockedAccount.lock sampleAccount [2, 2] with
        iv := ([2, 2] : List Nat).set 1 9 } [112] = .error .tampered ∧
    LockedAccount.unlock
      { LockedAccount.lock sampleAccount [2, 2] with
        publicDataBuffer :=
          (LockedAccount.lock sampleAccount [2, 2]).publicDataBuffer.set
            0 200 } [112] = .error .tampered :=
  ⟨claim2_unlock_error_classification.1 (LockedAccount.lock sampleAccount
      [2, 2]) [113] (by decide),
    claim2_unlock_error_classification.2.2.2.1 sampleAccount [2, 2] [112]
      0 99 (by decide) (by decide) (by decide),
    claim2_unlock_error_classification.2.2.2.2.1 sampleAccount [2, 2] [112]
      1 9 (by decide) (by decide) (by decide),
    claim2_unlock_error_classification.2.2.2.2.2 sampleAccount [2, 2] [112]
      0 200 (by decide) (by decide) (by decide)⟩

/-! ## Message codec (`src/lib/encoded.ts`) -/

/-- `Decoded`: the outcome of `decode`. -/
inductive Decoded where
  | sentToUnknown
  | sentMessage (receiver : Contact) (message : Message)
  | receivedMessage (sender : SharedContact) (message : Option Message)
  | signed (sender : SharedContact) (message : Message) (verified : Bool)
  | sharedContact (contact : SharedContact)
  deriving DecidableEq, Repr

/-- Lift a pure `Except` computation into a read (its outcome does not touch
the reader). -/
def liftE (e : Except Err α) : ReadM α := fun s => (e, s)

@[simp] theorem liftE_run (e : Except Err α) (s : List Nat) :
    liftE e s = (e, s) := rfl

/-- `decryptMessage(publicKey, privateKey, ciphertext, additionalData, iv)`:
derive the shared AES-GCM key by ECDH with `me`'s dh private key and decrypt;
an authentication failure (`OperationError`) is caught and returns null; a
successful decryption is parsed as a message body (an unknown sub-tag there
propagates `OutdatedError`). -/
def decryptMessage (publicKey : StoredPublicKey)
    (privateKey : StoredPrivateKey)
    (ciphertext additionalData iv : List Nat) : Except Err (Option Message) :=
  let key := ecdhDerive publicKey.inner privateKey.inner
  match aesDecrypt key iv additionalData ciphertext with
  | none => .ok none
  | some decrypted => (readMessage decrypted).1.map some

/-- The trial-decryption loop of `decode` (case 0): retry the same ciphertext
against each contact's dh key in contact-list order, returning the first
contact whose key decrypts it, else sent-to-unknown-recipient. -/
def trialDecrypt (dhPrivateKey : StoredPrivateKey)
    (ciphertext senderBytes iv : List Nat) :
    List Contact → Except Err Decoded
  | [] => .ok .sentToUnknown
  | contact :: rest => do
    let message ← decryptMessage contact.shared.dhPublicKey dhPrivateKey
      ciphertext senderBytes iv
    match message with
    | some message => pure (.sentMessage contact message)
    | none => trialDecrypt dhPrivateKey ciphertext senderBytes iv rest

/-- `decode(me, bytes)` — the top-level codec with the sender-disambiguation
algorithm.  (The defensive copy of `me.contacts` the source takes for
mutation resistance is the identity on our immutable values.) -/
def decodeM (me : UnlockedAccount) : ReadM Decoded := do
  let dhPrivateKey := me.dhKeyPair.privateKey
  let dsaPublicKey := me.publicData.dsaPublicKey
  let tag ← readUint8
  match tag with
  | 0 => do
    let contacts := me.contacts
    let senderBytesStart ← bytes
    let sender ← SharedContact.readFrom
    let bsAfter ← bytes
    let senderBytes :=
      senderBytesStart.take (senderBytesStart.length - bsAfter.length)
    let iv ← readLenBuffer .w1
    let ciphertext ← readLenBuffer .w4
    let bs ← bytes
    if bs.isEmpty then do
      let message ← liftE (decryptMessage sender.dhPublicKey dhPrivateKey
        ciphertext senderBytes iv)
      if message = none ∧
          sender.dsaPublicKey.serialized = dsaPublicKey.serialized then
        liftE (trialDecrypt dhPrivateKey ciphertext senderBytes iv contacts)
      else
        pure (.receivedMessage sender message)
    else fail .invalidFormat
  | 1 => do
    let sender ← SharedContact.readFrom
    let signature ← readLenBuffer .w1
    let toVerify ← bytes
    let message ← readMessage
    let verified :=
      ecdsaVerify sender.dsaPublicKey.inner 0 signature toVerify
    pure (.signed sender message verified)
  | 2 => do
    let contact ← SharedContact.readFrom
    let bs ← bytes
    if bs.isEmpty then pure (.sharedContact contact)
    else fail .invalidFormat
  | _ => fail .outdated

/-- `decode(me, bytes)`. -/
def decode (me : UnlockedAccount) (bytes_ : List Nat) : Except Err Decoded :=
  ((decodeM me) bytes_).1

/-- `SharedContact.ofAccount(account)`: freshly re-sign the dh public key
with the dsa private key (SHA-256). -/
def SharedContact.ofAccount (account : UnlockedAccount) : SharedContact :=
  let dsaPublicKey := account.publicData.dsaPublicKey
  let dhPublicKey := account.dhKeyPair.publicKey
  let toSign := dhPublicKey.serialized
  let signature := ecdsaSignBytes account.dsaPrivateKey.inner 0 toSign
  ⟨dsaPublicKey, dhPublicKey, signature, 0⟩

/-- `encryptMessage(me, recipient, message)`, with the random IV explicit:
ECDH with the recipient's dh key (or `me`'s own when sending to self),
AES-GCM with the serialized sender contact as associated data; emit tag 0,
sender bytes, length-prefixed IV and ciphertext. -/
def encryptMessage (me : UnlockedAccount) (recipient : Option SharedContact)
    (message : Message) (iv : List Nat) : List Nat :=
  let toEncrypt := writeMessage message
  let sender := SharedContact.ofAccount me
  let key := ecdhDerive
    (match recipient with
      | none => me.dhKeyPair.publicKey.inner
      | some r => r.dhPublicKey.inner)
    me.dhKeyPair.privateKey.inner
  let senderBytes := sender.writeTo
  let ciphertext := aesEncrypt key iv senderBytes toEncrypt
  writeUint8 0 ++ senderBytes ++ writeLenBuffer .w1 iv ++
    writeLenBuffer .w4 ciphertext

/-- `signMessage(me, message)`: emit tag 1, fresh sender contact,
length-prefixed SHA-256 signature, and the plaintext body last. -/
def signMessage (me : UnlockedAccount) (message : Message) : List Nat :=
  let toSign := writeMessage message
  let sender := SharedContact.ofAccount me
  let signature := ecdsaSignBytes me.dsaPrivateKey.inner 0 toSign
  writeUint8 1 ++ sender.writeTo ++ writeLenBuffer .w1 signature ++ toSign

/-- `contactCard(contact)`: tag 2 plus the contact. -/
def contactCard (contact : SharedContact) : List Nat :=
  writeUint8 2 ++ contact.writeTo

/-- The tag-0 wire layout: tag byte, sender contact bytes, length-prefixed IV,
length-prefixed ciphertext (the layout `encryptMessage` emits). -/
def encryptedWire (sender : SharedContact) (iv ct : List Nat) : List Nat :=
  writeUint8 0 ++ sender.writeTo ++ writeLenBuffer .w1 iv ++
    writeLenBuffer .w4 ct

theorem decryptMessage_none {pub : StoredPublicKey} {priv : StoredPrivateKey}
    {ct ad iv : List Nat}
    (h : aesDecrypt (ecdhDerive pub.inner priv.inner) iv ad ct = none) :
    decryptMessage pub priv ct ad iv = .ok none := by
  unfold decryptMessage
  dsimp only
  rw [h]

theorem decryptMessage_encrypt_self {pub : StoredPublicKey}
    {priv : StoredPrivateKey} {iv ad : List Nat} {m : Message} (hm : m.WF) :
    decryptMessage pub priv
        (aesEncrypt (ecdhDerive pub.inner priv.inner) iv ad (writeMessage m))
        ad iv = .ok (some m) := by
  unfold decryptMessage
  dsimp only
  rw [aesDecrypt_aesEncrypt]
  dsimp only
  rw [readMessage_run_writeMessage hm]
  rfl

theorem decryptMessage_of_key_ne {pub : StoredPublicKey}
    {priv : StoredPrivateKey} {K : Nat} {iv ad pt : List Nat}
    (hne : ecdhDerive pub.inner priv.inner ≠ K) :
    decryptMessage pub priv (aesEncrypt K iv ad pt) ad iv = .ok none :=
  decryptMessage_none (aesDecrypt_param_ne (Or.inl hne))

/-- The trial-decryption loop finds exactly the first contact in list order
whose derived key matches the ciphertext's key. -/
theorem trialDecrypt_spec {dhPriv : StoredPrivateKey} {K : Nat}
    {iv sb : List Nat} {m : Message} (hm : m.WF) (cs : List Contact) :
    trialDecrypt dhPriv (aesEncrypt K iv sb (writeMessage m)) sb iv cs =
      .ok (match cs.find? (fun c =>
          ecdhDerive c.shared.dhPublicKey.inner dhPriv.inner == K) with
        | some c => .sentMessage c m
        | none => .sentToUnknown) := by
  induction cs with
  | nil => rfl
  | cons c rest ih =>
    unfold trialDecrypt
    by_cases hk : ecdhDerive c.shared.dhPublicKey.inner dhPriv.inner = K
    · have hd := @decryptMessage_encrypt_self c.shared.dhPublicKey
        dhPriv iv sb m hm
      rw [hk] at hd
      rw [hd]
      rw [List.find?_cons_of_pos _ (by simp [hk])]
      rfl
    · rw [decryptMessage_of_key_ne hk]
      rw [List.find?_cons_of_neg _ (by simp [hk])]
      show trialDecrypt dhPriv (aesEncrypt K iv sb (writeMessage m)) sb iv
        rest = _
      exact ih

/-- The outcome of `decode` on a well-formed tag-0 wire, as a case split on
the initial decryption and the sender-is-me check. -/
theorem decode_encrypted_run {me : UnlockedAccount} {sender : SharedContact}
    {iv ct : List Nat} (hs : sender.WF) (hiv : iv.length < 256)
    (hct : ct.length < 4294967296) :
    decode me (encryptedWire sender iv ct) =
      match decryptMessage sender.dhPublicKey me.dhKeyPair.privateKey ct
          sender.writeTo iv with
      | .error e => .error e
      | .ok message =>
        if message = none ∧ sender.dsaPublicKey.serialized =
            me.publicData.dsaPublicKey.serialized then
          trialDecrypt me.dhKeyPair.privateKey ct sender.writeTo iv
            me.contacts
        else .ok (.receivedMessage sender message) := by
  unfold decode decodeM encryptedWire
  simp only [writeUint8, List.cons_append, List.nil_append, List.append_assoc]
  rw [bind_run_ok (readUint8_run_cons 0 _)]
  dsimp only
  rw [bind_run_ok (bytes_run _)]
  rw [bind_run_ok (parsesTo_SharedContact_readFrom hs _)]
  rw [bind_run_ok (bytes_run _)]
  rw [take_sub_append]
  rw [bind_run_ok (parsesTo_readLenBuffer
    (show iv.length < Width.range .w1 from hiv) _)]
  have hctparse := (parsesTo_readLenBuffer
    (show ct.length < Width.range .w4 from hct)) []
  rw [List.append_nil] at hctparse
  rw [bind_run_ok hctparse]
  rw [bind_run_ok (bytes_run _)]
  simp only [List.isEmpty_nil, if_true, eq_self_iff_true]
  cases hdm : decryptMessage sender.dhPublicKey me.dhKeyPair.privateKey ct
      sender.writeTo iv with
  | error e => rfl
  | ok message =>
    by_cases hcond : message = none ∧ sender.dsaPublicKey.serialized =
        me.publicData.dsaPublicKey.serialized
    · show ((liftE (Except.ok message) >>= fun message =>
          if message = none ∧ sender.dsaPublicKey.serialized =
              me.publicData.dsaPublicKey.serialized then
            liftE (trialDecrypt me.dhKeyPair.privateKey ct sender.writeTo iv
              me.contacts)
          else pure (Decoded.receivedMessage sender message)) []).1 = _
      rw [bind_run_ok (liftE_run (Except.ok message) [])]
      rw [if_pos hcond]
      dsimp only
      rw [if_pos hcond]
      rfl
    · show ((liftE (Except.ok message) >>= fun message =>
          if message = none ∧ sender.dsaPublicKey.serialized =
              me.publicData.dsaPublicKey.serialized then
            liftE (trialDecrypt me.dhKeyPair.privateKey ct sender.writeTo iv
              me.contacts)
          else pure (Decoded.receivedMessage sender message)) []).1 = _
      rw [bind_run_ok (liftE_run (Except.ok message) [])]
      rw [if_neg hcond]
      dsimp only
      rw [if_neg hcond]
      rfl

/-- **C1**: for every unlocked account `me` and well-formed encrypted-message
input (tag 0): when the nominal sender's dsa key differs from `me`'s, decode
returns a received-message result carrying the sender and either the
recovered plaintext (when AEAD decryption keyed by ECDH of `me`'s dh private
key with the sender's dh public key succeeds) or null (when it fails) — never
an error for a mere decryption failure; and when that decryption fails and
the nominal sender's dsa key equals `me`'s, decode trial-decrypts the same
ciphertext against each contact's dh key in contact-list order, returning a
sent-message result naming the first contact whose key decrypts it, or
sent-to-unknown-recipient when none does. -/
theorem claim1_decode_encrypted_disambiguation :
    ∀ (me : UnlockedAccount) (sender : SharedContact) (iv ct : List Nat),
      sender.WF → iv.length < 256 → ct.length < 4294967296 →
      (sender.dsaPublicKey.serialized ≠
          me.publicData.dsaPublicKey.serialized →
        (∀ m : Message, m.WF →
          ct = aesEncrypt (ecdhDerive sender.dhPublicKey.inner
              me.dhKeyPair.privateKey.inner) iv sender.writeTo
            (writeMessage m) →
          decode me (encryptedWire sender iv ct) =
            .ok (.receivedMessage sender (some m))) ∧
        (aesDecrypt (ecdhDerive sender.dhPublicKey.inner
              me.dhKeyPair.privateKey.inner) iv sender.writeTo ct = none →
          decode me (encryptedWire sender iv ct) =
            .ok (.receivedMessage sender none))) ∧
      (sender.dsaPublicKey.serialized =
          me.publicData.dsaPublicKey.serialized →
        ∀ (K : Nat) (m : Message), m.WF →
          ct = aesEncrypt K iv sender.writeTo (writeMessage m) →
          ecdhDerive sender.dhPublicKey.inner
            me.dhKeyPair.privateKey.inner ≠ K →
          decode me (encryptedWire sender iv ct) =
            .ok (match me.contacts.find? (fun c =>
                ecdhDerive c.shared.dhPublicKey.inner
                  me.dhKeyPair.privateKey.inner == K) with
              | some c => .sentMessage c m
              | none => .sentToUnknown)) := by
  intro me sender iv ct hs hiv hct
  refine ⟨fun hne => ⟨fun m hm hcteq => ?_, fun hdec => ?_⟩,
    fun heq K m hm hcteq hkne => ?_⟩
  · rw [decode_encrypted_run hs hiv hct]
    subst hcteq
    rw [decryptMessage_encrypt_self hm]
    dsimp only
    rw [if_neg (by simp)]
  · rw [decode_encrypted_run hs hiv hct]
    rw [decryptMessage_none hdec]
    dsimp only
    rw [if_neg (by simp [hne])]
  · rw [decode_encrypted_run hs hiv hct]
    subst hcteq
    rw [decryptMessage_of_key_ne hkne]
    dsimp only
    rw [if_pos ⟨rfl, heq⟩]
    rw [trialDecrypt_spec hm]

/-- Witness for C1 at concrete inputs: a message encrypted by the sample
contact for the sample account decodes as a received message with the
plaintext; the same ciphertext under the account's own identity (sent to the
contact) decodes as a sent message naming that contact. -/
theorem claim1_witness :
    decode sampleAccount (encryptedWire sampleContact.shared [9]
        (aesEncrypt (ecdhDerive sampleContact.shared.dhPublicKey.inner
            sampleAccount.dhKeyPair.privateKey.inner) [9]
          sampleContact.shared.writeTo (writeMessage (.text [72])))) =
      .ok (.receivedMessage sampleContact.shared (some (.text [72]))) ∧
    decode sampleAccount
        (encryptedWire (SharedContact.ofAccount sampleAccount) [9]
          (aesEncrypt (ecdhDerive sampleContact.shared.dhPublicKey.inner
              sampleAccount.dhKeyPair.privateKey.inner) [9]
            (SharedContact.ofAccount sampleAccount).writeTo
            (writeMessage (.text [72])))) =
      .ok (.sentMessage sampleContact (.text [72])) := by
  constructor
  · exact ((claim1_decode_encrypted_disambiguation sampleAccount
      sampleContact.shared [9]
      (aesEncrypt (ecdhDerive sampleContact.shared.dhPublicKey.inner
          sampleAccount.dhKeyPair.privateKey.inner) [9]
        sampleContact.shared.writeTo (writeMessage (.text [72])))
      (by decide) (by decide) (by decide)).1 (by decide)).1
      (.text [72]) (by decide) rfl
  · exact (claim1_decode_encrypted_disambiguation sampleAccount
      (SharedContact.ofAccount sampleAccount) [9]
      (aesEncrypt (ecdhDerive sampleContact.shared.dhPublicKey.inner
          sampleAccount.dhKeyPair.privateKey.inner) [9]
        (SharedContact.ofAccount sampleAccount).writeTo
        (writeMessage (.text [72])))
      (by decide) (by decide) (by decide)).2 (by decide)
      (ecdhDerive sampleContact.shared.dhPublicKey.inner
        sampleAccount.dhKeyPair.privateKey.inner)
      (.text [72]) (by decide) rfl (by decide)

/-- The outcome of `decode` on a tag-1 (signed message) wire whose sender
contact parses and whose remaining bytes parse as a message body: the message
is returned together with the flag from verifying the signature over the body
bytes with SHA-256 (hash tag 0). -/
theorem decode_signed_run {me : UnlockedAccount} {sender : SharedContact}
    {sig body : List Nat} {m : Message} {rest : List Nat}
    (hs : sender.WF) (hsig : sig.length < 256)
    (hm : readMessage body = (.ok m, rest)) :
    decode me
        (writeUint8 1 ++ sender.writeTo ++ writeLenBuffer .w1 sig ++ body) =
      .ok (.signed sender m
        (ecdsaVerify sender.dsaPublicKey.inner 0 sig body)) := by
  unfold decode decodeM
  simp only [writeUint8, List.cons_append, List.nil_append, List.append_assoc]
  rw [bind_run_ok (readUint8_run_cons 1 _)]
  dsimp only
  rw [bind_run_ok (parsesTo_SharedContact_readFrom hs _)]
  rw [bind_run_ok (parsesTo_readLenBuffer
    (show sig.length < Width.range .w1 from hsig) _)]
  rw [bind_run_ok (bytes_run body)]
  rw [bind_run_ok hm]
  rfl

theorem decode_signed_outdated {me : UnlockedAccount}
    {dsa dh : StoredPublicKey} {sig0 : List Nat} {sh : Nat}
    {sig body : List Nat} (hdsa : dsa.WF .ecdsa) (hdh : dh.WF .ecdh)
    (hsl0 : sig0.length < 256) (h3 : 3 ≤ sh) (h256 : sh < 256) :
    decode me (writeUint8 1 ++ SharedContact.writeTo ⟨dsa, dh, sig0, sh⟩ ++
        writeLenBuffer .w1 sig ++ body) = .error .outdated := by
  unfold decode decodeM
  simp only [writeUint8, List.cons_append, List.nil_append, List.append_assoc]
  rw [bind_run_ok (readUint8_run_cons 1 _)]
  dsimp only
  have hsc : SharedContact.readFrom
      (SharedContact.writeTo ⟨dsa, dh, sig0, sh⟩ ++
        (writeLenBuffer .w1 sig ++ body)) =
      (.error .outdated, writeLenBuffer .w1 sig ++ body) := by
    rw [SharedContact_readFrom_run hdsa hdh hsl0 h256]
    rw [show signatureHashName sh = none from by
      unfold signatureHashName
      rw [if_neg (by omega)]]
  rw [bind_run_error hsc]

/-- A foreign contact whose card and message signatures use SHA-384
(signature-hash tag 1). -/
def sha384Sender : SharedContact :=
  ⟨StoredPublicKey.new ⟨.ecdsa, .p256, 21⟩,
    StoredPublicKey.new ⟨.ecdh, .p256, 23⟩,
    ecdsaSignBytes ⟨.ecdsa, .p256, 21⟩ 1
      (StoredPublicKey.new ⟨.ecdh, .p256, 23⟩).serialized, 1⟩

/-- Counterexample to **C5** as stated: a signed-message wire from a sender
whose stated hash algorithm is SHA-384 (tag 1), carrying a signature that is
valid over the body under that stated algorithm — yet decode returns
`verified = false`, because the code verifies with SHA-256 regardless of the
sender's stated hash algorithm. -/
theorem claim5_counterexample :
    ecdsaVerify sha384Sender.dsaPublicKey.inner sha384Sender.signatureHash
        (ecdsaSignBytes ⟨.ecdsa, .p256, 21⟩ 1 (writeMessage (.text [72])))
        (writeMessage (.text [72])) = true ∧
    decode sampleAccount (writeUint8 1 ++ sha384Sender.writeTo ++
        writeLenBuffer .w1 (ecdsaSignBytes ⟨.ecdsa, .p256, 21⟩ 1
          (writeMessage (.text [72]))) ++ writeMessage (.text [72])) =
      .ok (.signed sha384Sender (.text [72]) false) := by
  constructor
  · decide
  · rw [decode_signed_run (m := .text [72]) (by decide) (by decide)
      (readMessage_run_writeMessage (by decide))]
    have hflag : ecdsaVerify sha384Sender.dsaPublicKey.inner 0
        (ecdsaSignBytes ⟨.ecdsa, .p256, 21⟩ 1 (writeMessage (.text [72])))
        (writeMessage (.text [72])) = false := by decide
    rw [hflag]

/-- **C5** (amended): for every signed-message input (tag 1), decode parses
the sender contact, the length-prefixed signature, and the remaining bytes as
the message body, verifies the signature over the body bytes under the
sender's dsa public key with SHA-256 — the hash algorithm is fixed; the
sender's stated hash-algorithm tag is used only when validating the embedded
contact card — and returns the parsed message together with the boolean
verified flag (the message is returned even when verification fails, which is
reported as `verified = false`, never as an error); an unsupported
hash-algorithm tag in the sender contact fails with an outdated-version
error. -/
theorem claim5_decode_signed_amended :
    (∀ (me : UnlockedAccount) (sender : SharedContact) (sig body : List Nat)
      (m : Message) (rest : List Nat), sender.WF → sig.length < 256 →
      readMessage body = (.ok m, rest) →
      decode me (writeUint8 1 ++ sender.writeTo ++ writeLenBuffer .w1 sig ++
          body) =
        .ok (.signed sender m
          (ecdsaVerify sender.dsaPublicKey.inner 0 sig body))) ∧
    (∀ (me : UnlockedAccount) (dsa dh : StoredPublicKey) (sig0 : List Nat)
      (sh : Nat) (sig body : List Nat), dsa.WF .ecdsa → dh.WF .ecdh →
      sig0.length < 256 → 3 ≤ sh → sh < 256 →
      decode me (writeUint8 1 ++ SharedContact.writeTo ⟨dsa, dh, sig0, sh⟩ ++
          writeLenBuffer .w1 sig ++ body) = .error .outdated) :=
  ⟨fun _ _ _ _ _ _ hs hsig hm => decode_signed_run hs hsig hm,
    fun _ _ _ _ _ _ _ hdsa hdh hsl0 h3 h256 =>
      decode_signed_outdated hdsa hdh hsl0 h3 h256⟩

/-- Witness for the amended C5: a correctly signed message decodes with
`verified = true`; a sender contact with hash tag 7 is an outdated-version
error. -/
theorem claim5_witness :
    decode sampleAccount (writeUint8 1 ++
        (SharedContact.ofAccount sampleAccount).writeTo ++
        writeLenBuffer .w1 (ecdsaSignBytes sampleAccount.dsaPrivateKey.inner
          0 (writeMessage (.text [72]))) ++ writeMessage (.text [72])) =
      .ok (.signed (SharedContact.ofAccount sampleAccount) (.text [72])
        true) ∧
    decode sampleAccount (writeUint8 1 ++
        SharedContact.writeTo ⟨sampleDsaKey, sampleDhKey, [8], 7⟩ ++
        writeLenBuffer .w1 [4] ++ [0, 72]) = .error .outdated := by
  constructor
  · have := claim5_decode_signed_amended.1 sampleAccount
      (SharedContact.ofAccount sampleAccount)
      (ecdsaSignBytes sampleAccount.dsaPrivateKey.inner 0
        (writeMessage (.text [72])))
      (writeMessage (.text [72])) (.text [72]) [] (by decide) (by decide)
      (readMessage_run_writeMessage (by decide))
    rw [this]
    have hflag : ecdsaVerify
        (SharedContact.ofAccount sampleAccount).dsaPublicKey.inner 0
        (ecdsaSignBytes sampleAccount.dsaPrivateKey.inner 0
          (writeMessage (.text [72])))
        (writeMessage (.text [72])) = true := by decide
    rw [hflag]
  · exact claim5_decode_signed_amended.2 sampleAccount sampleDsaKey
      sampleDhKey [8] 7 [4] [0, 72] (by decide) (by decide) (by decide)
      (by decide) (by decide)

end CrypNote
